import Mathlib

/-!
A shallow embedding of `cmk/utils/licensing/export.py` (Checkmk license usage
export): subscription limit parsing, the multi-version sample parser family
and the monthly service-average aggregation engine.

Modelling conventions:
* dynamically typed Python values are the inductive `PyVal` (tuples and lists
  are both `PyVal.list`, mirroring the `isinstance(raw, (list, tuple))`
  checks of the source);
* exceptions are the `Except` monad, with the exception class as error value;
* Python `float` results of the aggregation are modelled as exact rationals;
* `datetime` values are civil dates (year, month, day) plus a
  seconds-of-the-day component, in the UTC reading of local time.
-/

/-- Python exception classes raised by the embedded code. -/
inductive PyErr where
  | typeError
  | valueError
  | keyError
  | attributeError
deriving DecidableEq, Repr

/-- Dynamically typed Python values (the shapes reachable in this module). -/
inductive PyVal where
  | str (s : String)
  | int (n : Int)
  | bool (b : Bool)
  | list (xs : List PyVal)
  | dict (m : List (String × PyVal))
  | none

/-- `m.get(k)` on a Python dict, as an `Option`. -/
def pyLookup (m : List (String × PyVal)) (k : String) : Option PyVal :=
  (m.find? (fun p => p.1 == k)).map (fun p => p.2)

/-- `m[k]` on a Python dict: raises `KeyError` when the key is absent. -/
def pyIndex (m : List (String × PyVal)) (k : String) : Except PyErr PyVal :=
  match pyLookup m k with
  | some v => .ok v
  | none => .error .keyError

/-- Python truthiness (`bool(v)`), for the value shapes of `PyVal`. -/
def pyTruthy : PyVal → Bool
  | .str s => s ≠ ""
  | .int n => n ≠ 0
  | .bool b => b
  | .list xs => !xs.isEmpty
  | .dict m => !m.isEmpty
  | .none => false

/-- The builtin `int(v)` for the `str | int | float`-annotated call sites of
the source (`bool` is an `int` subclass in Python).  String conversion
accepts an optional sign followed by digits. -/
def pyToInt : PyVal → Except PyErr Int
  | .int n => .ok n
  | .bool b => .ok (if b then 1 else 0)
  | .str s =>
    match s.toInt? with
    | some n => .ok n
    | none => .error .valueError
  | _ => .error .typeError

/-- The builtin `str(v)` for the `str | int | float`-annotated call sites of
the source (only scalar shapes are reachable there). -/
def pyStrOf : PyVal → String
  | .str s => s
  | .int n => toString n
  | .bool b => if b then "True" else "False"
  | .none => "None"
  | .list _ => ""
  | .dict _ => ""

/-! ## Subscription details -/

def _SUBSCRIPTION_LIMITS_FIXED : List String :=
  ["3000", "7000", "12000", "18000", "30000", "60000", "100000", "200000",
   "300000", "500000", "1000000", "1500000", "2000000", "2000000+"]

inductive SubscriptionDetailsLimitType where
  | fixed
  | unlimited
  | custom
deriving DecidableEq, Repr

/-- `Enum.name` of a `SubscriptionDetailsLimitType` member. -/
def SubscriptionDetailsLimitType.name : SubscriptionDetailsLimitType → String
  | .fixed => "fixed"
  | .unlimited => "unlimited"
  | .custom => "custom"

structure SubscriptionDetailsLimit where
  type_ : SubscriptionDetailsLimitType
  value : Int
deriving DecidableEq, Repr

/-- `SubscriptionDetailsLimit.for_report`: the `(type name, value)` pair. -/
def SubscriptionDetailsLimit.for_report (l : SubscriptionDetailsLimit) : PyVal :=
  .list [.str l.type_.name, .int l.value]

/-- `SubscriptionDetailsLimit.for_config`. -/
def SubscriptionDetailsLimit.for_config (l : SubscriptionDetailsLimit) : PyVal :=
  match l.type_ with
  | .fixed => .str (toString l.value)
  | .unlimited => .str "2000000+"
  | .custom => .list [.str "custom", .int l.value]

/-- `raw_type in ["2000000+", "unlimited"]`. -/
def isUnlimitedTag : PyVal → Bool
  | .str "2000000+" => true
  | .str "unlimited" => true
  | _ => false

/-- `SubscriptionDetailsLimit._parse(raw_type, raw_value)`.  The `or` of the
unlimited test short-circuits, so `int(raw_value)` is evaluated (and may
fail) only when the type tag is not an unlimited tag. -/
def SubscriptionDetailsLimit.parseParts (raw_type : PyVal) (raw_value : PyVal) :
    Except PyErr SubscriptionDetailsLimit := do
  let isUnlimited ←
    if isUnlimitedTag raw_type then
      pure true
    else do
      let n ← pyToInt raw_value
      pure (decide (n = -1))
  if isUnlimited then
    -- '-1' means unlimited (sentinel also used in the license DB).
    pure ⟨.unlimited, -1⟩
  else if pyStrOf raw_value ∈ _SUBSCRIPTION_LIMITS_FIXED then do
    let v ← pyToInt raw_value
    pure ⟨.fixed, v⟩
  else do
    let v ← pyToInt raw_value
    pure ⟨.custom, v⟩

/-- `SubscriptionDetailsLimit.parse(raw_limit)`: a 2-element list/tuple is
split into `(type tag, value)`; a scalar is passed as
`(str(raw_limit), raw_limit)`; anything else is a `TypeError`. -/
def SubscriptionDetailsLimit.parse (raw_limit : PyVal) :
    Except PyErr SubscriptionDetailsLimit :=
  match raw_limit with
  | .list [a, b] => SubscriptionDetailsLimit.parseParts a b
  | .list _ => .error .typeError
  | .str s => SubscriptionDetailsLimit.parseParts (.str (pyStrOf (.str s))) (.str s)
  | .int n => SubscriptionDetailsLimit.parseParts (.str (pyStrOf (.int n))) (.int n)
  | .bool b => SubscriptionDetailsLimit.parseParts (.str (pyStrOf (.bool b))) (.bool b)
  | _ => .error .typeError

structure SubscriptionDetails where
  start : Int
  «end» : Int
  limit : SubscriptionDetailsLimit
deriving DecidableEq, Repr

/-- `_parse_subscription_details(raw)`: accepts the legacy 2-element
`(source_tag, detail_dict)` form or a flat dict; both read
`subscription_start`, `subscription_end` (through `int(...)`) and
`subscription_limit`. -/
def _parse_subscription_details (raw : PyVal) : Except PyErr SubscriptionDetails :=
  match raw with
  | .list [_source, details] =>
    match details with
    | .dict dm => do
      let start ← pyToInt (← pyIndex dm "subscription_start")
      let «end» ← pyToInt (← pyIndex dm "subscription_end")
      let limit ← SubscriptionDetailsLimit.parse (← pyIndex dm "subscription_limit")
      pure ⟨start, «end», limit⟩
    | _ => .error .typeError
  | .list _ => .error .typeError
  | .dict dm => do
    let start ← pyToInt (← pyIndex dm "subscription_start")
    let «end» ← pyToInt (← pyIndex dm "subscription_end")
    let limit ← SubscriptionDetailsLimit.parse (← pyIndex dm "subscription_limit")
    pure ⟨start, «end», limit⟩
  | _ => .error .typeError

/-! ## Samples and the versioned parser family -/

structure LicenseUsageExtensions where
  ntop : PyVal

/-- `LicenseUsageExtensions.parse_from_sample(raw)`: the flattened
`extension_ntop` key wins over the legacy nested `extensions.ntop` key.  The
nested expression `raw.get("extensions", {}).get("ntop", False)` is the
eagerly evaluated default of the outer `.get`, so a present non-dict
`extensions` value raises `AttributeError` even when `extension_ntop` is
present. -/
def LicenseUsageExtensions.parse_from_sample (raw : PyVal) :
    Except PyErr LicenseUsageExtensions :=
  match raw with
  | .dict m => do
    let nested ←
      match (pyLookup m "extensions").getD (.dict []) with
      | .dict im => Except.ok ((pyLookup im "ntop").getD (.bool false))
      | _ => .error .attributeError
    pure ⟨(pyLookup m "extension_ntop").getD nested⟩
  | _ => .error .typeError

/-- The canonical sample.  Fields that the Python code merely copies out of
the raw mapping without inspecting them are kept as dynamic `PyVal`s; the
`UUID` of `instance_id` is kept as its string. -/
structure LicenseUsageSample where
  instance_id : Option String
  site_hash : PyVal
  version : PyVal
  edition : PyVal
  platform : String
  is_cma : PyVal
  sample_time : PyVal
  timezone : PyVal
  num_hosts : PyVal
  num_hosts_cloud : PyVal
  num_hosts_shadow : PyVal
  num_hosts_excluded : PyVal
  num_services : PyVal
  num_services_cloud : PyVal
  num_services_shadow : PyVal
  num_services_excluded : PyVal
  num_synthetic_tests : PyVal
  num_synthetic_tests_excluded : PyVal
  extension_ntop : PyVal

/-- `_parse_platform`: restrict the platform string to 50 characters. -/
def _parse_platform (platform : String) : String :=
  platform.take 50

/-- `_parse_platform(raw["platform"])`: the slice `[:50]` requires a string
value. -/
def platformField (m : List (String × PyVal)) : Except PyErr String := do
  match ← pyIndex m "platform" with
  | .str s => pure (_parse_platform s)
  | _ => .error .typeError

/-- `uuid.UUID(v)` (standard library, external to this module): requires a
string argument; its hex-format validation is not modelled, the given string
is kept as the UUID. -/
def parseUUID : PyVal → Except PyErr String
  | .str s => .ok s
  | _ => .error .typeError

/-- `ParserV1_0.parse_sample`: no instance id in the raw record (the
caller-supplied one is used), excluded counters forced to 0. -/
def ParserV1_0.parse_sample (instance_id : Option String) (site_hash : String)
    (raw : PyVal) : Except PyErr LicenseUsageSample :=
  match raw with
  | .dict m => do
    let sh := (pyLookup m "site_hash").getD (.str site_hash)
    if !pyTruthy sh then throw .valueError
    let extensions ← LicenseUsageExtensions.parse_from_sample (.dict m)
    let version ← pyIndex m "version"
    let edition ← pyIndex m "edition"
    let platform ← platformField m
    let is_cma ← pyIndex m "is_cma"
    let sample_time ← pyIndex m "sample_time"
    let timezone ← pyIndex m "timezone"
    let num_hosts ← pyIndex m "num_hosts"
    let num_services ← pyIndex m "num_services"
    pure { instance_id, site_hash := sh, version, edition, platform, is_cma,
           sample_time, timezone, num_hosts,
           num_hosts_cloud := .int 0, num_hosts_shadow := .int 0,
           num_hosts_excluded := .int 0, num_services,
           num_services_cloud := .int 0, num_services_shadow := .int 0,
           num_services_excluded := .int 0, num_synthetic_tests := .int 0,
           num_synthetic_tests_excluded := .int 0,
           extension_ntop := extensions.ntop }
  | _ => .error .typeError

/-- `_parse_sample_v1_1` (shared by versions 1.1, 1.2 and 1.3): like 1.0 but
the excluded counters are read from the raw record. -/
def _parse_sample_v1_1 (instance_id : Option String) (site_hash : String)
    (raw : PyVal) : Except PyErr LicenseUsageSample :=
  match raw with
  | .dict m => do
    let sh := (pyLookup m "site_hash").getD (.str site_hash)
    if !pyTruthy sh then throw .valueError
    let extensions ← LicenseUsageExtensions.parse_from_sample (.dict m)
    let version ← pyIndex m "version"
    let edition ← pyIndex m "edition"
    let platform ← platformField m
    let is_cma ← pyIndex m "is_cma"
    let sample_time ← pyIndex m "sample_time"
    let timezone ← pyIndex m "timezone"
    let num_hosts ← pyIndex m "num_hosts"
    let num_hosts_excluded ← pyIndex m "num_hosts_excluded"
    let num_services ← pyIndex m "num_services"
    let num_services_excluded ← pyIndex m "num_services_excluded"
    pure { instance_id, site_hash := sh, version, edition, platform, is_cma,
           sample_time, timezone, num_hosts,
           num_hosts_cloud := .int 0, num_hosts_shadow := .int 0,
           num_hosts_excluded, num_services,
           num_services_cloud := .int 0, num_services_shadow := .int 0,
           num_services_excluded, num_synthetic_tests := .int 0,
           num_synthetic_tests_excluded := .int 0,
           extension_ntop := extensions.ntop }
  | _ => .error .typeError

def ParserV1_1.parse_sample : Option String → String → PyVal →
    Except PyErr LicenseUsageSample := _parse_sample_v1_1

def ParserV1_2.parse_sample : Option String → String → PyVal →
    Except PyErr LicenseUsageSample := _parse_sample_v1_1

def ParserV1_3.parse_sample : Option String → String → PyVal →
    Except PyErr LicenseUsageSample := _parse_sample_v1_1

/-- `ParserV1_4.parse_sample`: adds the shadow-host count, read from the raw
key `num_shadow_hosts`. -/
def ParserV1_4.parse_sample (instance_id : Option String) (site_hash : String)
    (raw : PyVal) : Except PyErr LicenseUsageSample :=
  match raw with
  | .dict m => do
    let sh := (pyLookup m "site_hash").getD (.str site_hash)
    if !pyTruthy sh then throw .valueError
    let extensions ← LicenseUsageExtensions.parse_from_sample (.dict m)
    let version ← pyIndex m "version"
    let edition ← pyIndex m "edition"
    let platform ← platformField m
    let is_cma ← pyIndex m "is_cma"
    let sample_time ← pyIndex m "sample_time"
    let timezone ← pyIndex m "timezone"
    let num_hosts ← pyIndex m "num_hosts"
    let num_hosts_shadow ← pyIndex m "num_shadow_hosts"
    let num_hosts_excluded ← pyIndex m "num_hosts_excluded"
    let num_services ← pyIndex m "num_services"
    let num_services_excluded ← pyIndex m "num_services_excluded"
    pure { instance_id, site_hash := sh, version, edition, platform, is_cma,
           sample_time, timezone, num_hosts,
           num_hosts_cloud := .int 0, num_hosts_shadow,
           num_hosts_excluded, num_services,
           num_services_cloud := .int 0, num_services_shadow := .int 0,
           num_services_excluded, num_synthetic_tests := .int 0,
           num_synthetic_tests_excluded := .int 0,
           extension_ntop := extensions.ntop }
  | _ => .error .typeError

/-- `ParserV1_5.parse_sample`: first version that requires a truthy
`instance_id` in the raw record (`ValueError` otherwise), otherwise the 1.4
field set. -/
def ParserV1_5.parse_sample (_instance_id : Option String) (site_hash : String)
    (raw : PyVal) : Except PyErr LicenseUsageSample :=
  match raw with
  | .dict m => do
    let raw_instance_id := (pyLookup m "instance_id").getD .none
    if !pyTruthy raw_instance_id then throw .valueError
    let sh := (pyLookup m "site_hash").getD (.str site_hash)
    if !pyTruthy sh then throw .valueError
    let extensions ← LicenseUsageExtensions.parse_from_sample (.dict m)
    let instId ← parseUUID raw_instance_id
    let version ← pyIndex m "version"
    let edition ← pyIndex m "edition"
    let platform ← platformField m
    let is_cma ← pyIndex m "is_cma"
    let sample_time ← pyIndex m "sample_time"
    let timezone ← pyIndex m "timezone"
    let num_hosts ← pyIndex m "num_hosts"
    let num_hosts_shadow ← pyIndex m "num_shadow_hosts"
    let num_hosts_excluded ← pyIndex m "num_hosts_excluded"
    let num_services ← pyIndex m "num_services"
    let num_services_excluded ← pyIndex m "num_services_excluded"
    pure { instance_id := some instId, site_hash := sh, version, edition,
           platform, is_cma, sample_time, timezone, num_hosts,
           num_hosts_cloud := .int 0, num_hosts_shadow,
           num_hosts_excluded, num_services,
           num_services_cloud := .int 0, num_services_shadow := .int 0,
           num_services_excluded, num_synthetic_tests := .int 0,
           num_synthetic_tests_excluded := .int 0,
           extension_ntop := extensions.ntop }
  | _ => .error .typeError

/-- `_parse_sample_v2_0` (shared by versions 2.0 and 2.1): requires a truthy
raw `instance_id`; full cloud/shadow split, no synthetic tests. -/
def _parse_sample_v2_0 (_instance_id : Option String) (site_hash : String)
    (raw : PyVal) : Except PyErr LicenseUsageSample :=
  match raw with
  | .dict m => do
    let raw_instance_id := (pyLookup m "instance_id").getD .none
    if !pyTruthy raw_instance_id then throw .valueError
    let sh := (pyLookup m "site_hash").getD (.str site_hash)
    if !pyTruthy sh then throw .valueError
    let extensions ← LicenseUsageExtensions.parse_from_sample (.dict m)
    let instId ← parseUUID raw_instance_id
    let version ← pyIndex m "version"
    let edition ← pyIndex m "edition"
    let platform ← platformField m
    let is_cma ← pyIndex m "is_cma"
    let sample_time ← pyIndex m "sample_time"
    let timezone ← pyIndex m "timezone"
    let num_hosts ← pyIndex m "num_hosts"
    let num_hosts_cloud ← pyIndex m "num_hosts_cloud"
    let num_hosts_shadow ← pyIndex m "num_hosts_shadow"
    let num_hosts_excluded ← pyIndex m "num_hosts_excluded"
    let num_services ← pyIndex m "num_services"
    let num_services_cloud ← pyIndex m "num_services_cloud"
    let num_services_shadow ← pyIndex m "num_services_shadow"
    let num_services_excluded ← pyIndex m "num_services_excluded"
    pure { instance_id := some instId, site_hash := sh, version, edition,
           platform, is_cma, sample_time, timezone, num_hosts,
           num_hosts_cloud, num_hosts_shadow, num_hosts_excluded,
           num_services, num_services_cloud, num_services_shadow,
           num_services_excluded, num_synthetic_tests := .int 0,
           num_synthetic_tests_excluded := .int 0,
           extension_ntop := extensions.ntop }
  | _ => .error .typeError

def ParserV2_0.parse_sample : Option String → String → PyVal →
    Except PyErr LicenseUsageSample := _parse_sample_v2_0

def ParserV2_1.parse_sample : Option String → String → PyVal →
    Except PyErr LicenseUsageSample := _parse_sample_v2_0

/-- `ParserV3_0.parse_sample`: the current full field set, including the
synthetic-test counters. -/
def ParserV3_0.parse_sample (_instance_id : Option String) (site_hash : String)
    (raw : PyVal) : Except PyErr LicenseUsageSample :=
  match raw with
  | .dict m => do
    let raw_instance_id := (pyLookup m "instance_id").getD .none
    if !pyTruthy raw_instance_id then throw .valueError
    let sh := (pyLookup m "site_hash").getD (.str site_hash)
    if !pyTruthy sh then throw .valueError
    let extensions ← LicenseUsageExtensions.parse_from_sample (.dict m)
    let instId ← parseUUID raw_instance_id
    let version ← pyIndex m "version"
    let edition ← pyIndex m "edition"
    let platform ← platformField m
    let is_cma ← pyIndex m "is_cma"
    let sample_time ← pyIndex m "sample_time"
    let timezone ← pyIndex m "timezone"
    let num_hosts ← pyIndex m "num_hosts"
    let num_hosts_cloud ← pyIndex m "num_hosts_cloud"
    let num_hosts_shadow ← pyIndex m "num_hosts_shadow"
    let num_hosts_excluded ← pyIndex m "num_hosts_excluded"
    let num_services ← pyIndex m "num_services"
    let num_services_cloud ← pyIndex m "num_services_cloud"
    let num_services_shadow ← pyIndex m "num_services_shadow"
    let num_services_excluded ← pyIndex m "num_services_excluded"
    let num_synthetic_tests ← pyIndex m "num_synthetic_tests"
    let num_synthetic_tests_excluded ← pyIndex m "num_synthetic_tests_excluded"
    pure { instance_id := some instId, site_hash := sh, version, edition,
           platform, is_cma, sample_time, timezone, num_hosts,
           num_hosts_cloud, num_hosts_shadow, num_hosts_excluded,
           num_services, num_services_cloud, num_services_shadow,
           num_services_excluded, num_synthetic_tests,
           num_synthetic_tests_excluded,
           extension_ntop := extensions.ntop }
  | _ => .error .typeError

/-- `parse_protocol_version(raw)`: `raw` must be a dict whose `VERSION`
value is a string (`TypeError` otherwise, also for a missing key, whose
`.get` default `None` is not a string); the string must be one of the nine
supported literals (`ValueError` otherwise). -/
def parse_protocol_version (raw : PyVal) : Except PyErr String :=
  match raw with
  | .dict m =>
    match (pyLookup m "VERSION").getD .none with
    | .str s =>
      if s = "1.0" then .ok "1.0"
      else if s = "1.1" then .ok "1.1"
      else if s = "1.2" then .ok "1.2"
      else if s = "1.3" then .ok "1.3"
      else if s = "1.4" then .ok "1.4"
      else if s = "1.5" then .ok "1.5"
      else if s = "2.0" then .ok "2.0"
      else if s = "2.1" then .ok "2.1"
      else if s = "3.0" then .ok "3.0"
      else .error .valueError
    | _ => .error .typeError
  | _ => .error .typeError

/-! ## Dates and datetimes

The `datetime` values of the aggregation engine, in the UTC reading of local
time.  Only the civil fields (year, month, day) and a seconds-of-the-day
component are needed: every datetime built by the engine except "today" is a
midnight. -/

structure Date where
  y : Int
  m : Int
  d : Int
deriving DecidableEq, Repr

/-- Is `y` a leap year (Gregorian calendar)? -/
def isLeapYear (y : Int) : Bool :=
  y % 4 = 0 && (y % 100 ≠ 0 || y % 400 = 0)

/-- The number of days of month `m` of year `y`. -/
def daysInMonth (y m : Int) : Int :=
  if m = 2 then (if isLeapYear y then 29 else 28)
  else if m = 4 ∨ m = 6 ∨ m = 9 ∨ m = 11 then 30
  else 31

/-- `date + relativedelta(months=+1)`: advance by one month, clamping the
day to the length of the target month. -/
def Date.addMonth (x : Date) : Date :=
  if x.m = 12 then ⟨x.y + 1, 1, min x.d (daysInMonth (x.y + 1) 1)⟩
  else ⟨x.y, x.m + 1, min x.d (daysInMonth x.y (x.m + 1))⟩

/-- Lexicographic `datetime.date` comparison (strict). -/
def Date.Lt (a b : Date) : Prop :=
  a.y < b.y ∨ (a.y = b.y ∧ (a.m < b.m ∨ (a.m = b.m ∧ a.d < b.d)))

/-- Lexicographic `datetime.date` comparison (non-strict). -/
def Date.Le (a b : Date) : Prop :=
  a.y < b.y ∨ (a.y = b.y ∧ (a.m < b.m ∨ (a.m = b.m ∧ a.d ≤ b.d)))

instance (a b : Date) : Decidable (Date.Lt a b) := by
  unfold Date.Lt; exact inferInstance

instance (a b : Date) : Decidable (Date.Le a b) := by
  unfold Date.Le; exact inferInstance

structure DateTime where
  date : Date
  secs : Int
deriving DecidableEq, Repr

/-- Lexicographic `datetime` comparison (strict). -/
def DateTime.Lt (a b : DateTime) : Prop :=
  Date.Lt a.date b.date ∨ (a.date = b.date ∧ a.secs < b.secs)

/-- Lexicographic `datetime` comparison (non-strict). -/
def DateTime.Le (a b : DateTime) : Prop :=
  Date.Lt a.date b.date ∨ (a.date = b.date ∧ a.secs ≤ b.secs)

instance (a b : DateTime) : Decidable (DateTime.Lt a b) := by
  unfold DateTime.Lt; exact inferInstance

instance (a b : DateTime) : Decidable (DateTime.Le a b) := by
  unfold DateTime.Le; exact inferInstance

/-- `datetime(y, m, d)`: the midnight of a civil date. -/
def Date.midnight (x : Date) : DateTime := ⟨x, 0⟩

/-- Civil date of a day number counted from 1970-01-01 (Howard Hinnant's
`civil_from_days` algorithm, with floor division). -/
def civilFromDays (z : Int) : Date :=
  let z' := z + 719468
  let era : Int := z'.fdiv 146097
  let doe : Int := z' - era * 146097
  let yoe : Int := (doe - doe.fdiv 1460 + doe.fdiv 36524 - doe.fdiv 146096).fdiv 365
  let y : Int := yoe + era * 400
  let doy : Int := doe - (365 * yoe + yoe.fdiv 4 - yoe.fdiv 100)
  let mp : Int := (5 * doy + 2).fdiv 153
  let d : Int := doy - (153 * mp + 2).fdiv 5 + 1
  let m : Int := mp + (if mp < 10 then 3 else -9)
  ⟨y + (if m ≤ 2 then 1 else 0), m, d⟩

/-- Day number from a civil date (Hinnant's `days_from_civil`). -/
def daysFromCivil (x : Date) : Int :=
  let y := x.y - (if x.m ≤ 2 then 1 else 0)
  let era := y.fdiv 400
  let yoe := y - era * 400
  let mp := x.m + (if 2 < x.m then -3 else 9)
  let doy := (153 * mp + 2).fdiv 5 + x.d - 1
  let doe := yoe * 365 + yoe.fdiv 4 - yoe.fdiv 100 + doy
  era * 146097 + doe - 719468

/-- `datetime.fromtimestamp(t)` in the UTC reading of local time. -/
def datetimeFromTimestamp (t : Int) : DateTime :=
  let days := t.fdiv 86400
  ⟨civilFromDays days, t - days * 86400⟩

/-- `datetime.timestamp()` (UTC reading), an integer for the whole-second
datetimes of this module. -/
def DateTime.timestamp (x : DateTime) : Int :=
  daysFromCivil x.date * 86400 + x.secs

/-! ## The aggregation engine -/

/-- The `limit` field of `SubscriptionDetailsForAggregation`:
`Literal["unlimited"] | tuple[Literal["free"], Literal[3]] | int | None`. -/
inductive AggregationLimit where
  | unlimited
  | free
  | num (n : Int)
  | null
deriving DecidableEq, Repr

structure SubscriptionDetailsForAggregation where
  start : Option Int
  «end» : Option Int
  limit : AggregationLimit
deriving DecidableEq, Repr

/-- `__post_init__`: a plain integer limit must be positive. -/
def SubscriptionDetailsForAggregation.postInitOk
    (s : SubscriptionDetailsForAggregation) : Prop :=
  match s.limit with
  | .num n => 0 < n
  | _ => True

/-- `is_free`: the limit is the `("free", 3)` marker. -/
def SubscriptionDetailsForAggregation.is_free
    (s : SubscriptionDetailsForAggregation) : Bool :=
  match s.limit with
  | .free => true
  | _ => false

/-- `real_limit`: `limit[1]` of the tuple marker (that is 3), a plain
integer limit itself, `None` otherwise. -/
def SubscriptionDetailsForAggregation.real_limit
    (s : SubscriptionDetailsForAggregation) : Option Int :=
  match s.limit with
  | .free => some 3
  | .num n => some n
  | _ => none

/-- The `limit` entry of `RawSubscriptionDetailsForAggregation`
(`Literal["unlimited"] | int | None`). -/
inductive RawAggregationLimit where
  | unlimited
  | num (n : Int)
  | null
deriving DecidableEq, Repr

structure RawSubscriptionDetailsForAggregation where
  start : Option Int
  «end» : Option Int
  limit : RawAggregationLimit
deriving DecidableEq, Repr

/-- `SubscriptionDetailsForAggregation.for_report`: the tuple marker reports
its numeric part `limit[1]`. -/
def SubscriptionDetailsForAggregation.for_report
    (s : SubscriptionDetailsForAggregation) : RawSubscriptionDetailsForAggregation :=
  ⟨s.start, s.«end»,
    match s.limit with
    | .unlimited => .unlimited
    | .free => .num 3
    | .num n => .num n
    | .null => .null⟩

/-- `MonthlyServiceAverage`: a day start with a raw count before
aggregation, a month start with an averaged value after.  The Python `float`
is modelled as an exact rational. -/
structure MonthlyServiceAverage where
  sample_date : DateTime
  num_services : ℚ
deriving DecidableEq, Repr

/-- The `{"sample_time": ..., "num_services": ...}` mapping produced by
`MonthlyServiceAverage.for_report`. -/
structure ServiceReport where
  sample_time : Int
  num_services : ℚ
deriving DecidableEq, Repr

def MonthlyServiceAverage.for_report (a : MonthlyServiceAverage) : ServiceReport :=
  ⟨a.sample_date.timestamp, a.num_services⟩

/-- `daily_services.setdefault(day, Counter()).update(num_services=n)`:
add `n` to the tally of `day`, keeping dict insertion order (a new key is
appended at the end). -/
def updateDaily (acc : List (Date × Int)) (day : Date) (n : Int) : List (Date × Int) :=
  match acc with
  | [] => [(day, n)]
  | (k, v) :: rest =>
    if k = day then (k, v + n) :: rest else (k, v) :: updateDaily rest day n

/-- The day key of a sample time:
`datetime(sample_date.year, sample_date.month, sample_date.day)` for
`sample_date = datetime.fromtimestamp(sample_time)`. -/
def dailyKey (sample_time : Int) : Date :=
  (datetimeFromTimestamp sample_time).date

/-- The `daily_services` dict of `_calculate_daily_services` after the
grouping loop. -/
def dailyTally (short_samples : List (Int × Int)) : List (Date × Int) :=
  short_samples.foldl (fun acc p => updateDaily acc (dailyKey p.1) p.2) []

/-- The ordering of `sorted(daily_services.items())`: the Python sort
compares `(datetime, Counter)` pairs; the keys are pairwise distinct, so
only the (lexicographic) key comparison decides. -/
def dailyOrder (a b : Date × Int) : Prop := Date.Le a.1 b.1

instance : DecidableRel dailyOrder := fun a b =>
  inferInstanceAs (Decidable (Date.Le a.1 b.1))

/-- `MonthlyServiceAverages._calculate_daily_services`:
`sorted(daily_services.items())[-400:]` turned into averages (a stable
sort, as Python's). -/
def _calculate_daily_services (short_samples : List (Int × Int)) :
    List MonthlyServiceAverage :=
  let sorted := (dailyTally short_samples).insertionSort dailyOrder
  (sorted.drop (sorted.length - 400)).map
    fun p => ⟨Date.midnight p.1, (p.2 : ℚ)⟩

/-- The builtin `int(x)` on a float: truncation toward zero. -/
def pyIntOfRat (q : ℚ) : Int :=
  if q < 0 then ⌈q⌉ else ⌊q⌋

/-- The per-month `Counter` of `_calculate_averages`. -/
structure MonthCounter where
  num_daily_services : Int
  num_services : Int
deriving DecidableEq, Repr

/-- `monthly_services.setdefault(month_start, Counter()).update(
num_daily_services=1, num_services=svc)`. -/
def updateMonthly (acc : List (Date × MonthCounter)) (w : Date) (svc : Int) :
    List (Date × MonthCounter) :=
  match acc with
  | [] => [(w, ⟨1, svc⟩)]
  | (k, c) :: rest =>
    if k = w then (k, ⟨c.num_daily_services + 1, c.num_services + svc⟩) :: rest
    else (k, c) :: updateMonthly rest w svc

/-- The daily loop of `_calculate_averages`: the window advances by at most
one month per daily service, the loop breaks (dropping the rest) on the
first window that reaches "today" or passes the subscription end date, and a
day inside the current window is tallied for `month_start`. -/
def averagesLoop (today : DateTime) (subscription_end_date : Date) :
    Date → Date → List (Date × MonthCounter) → List MonthlyServiceAverage →
    List (Date × MonthCounter)
  | _, _, acc, [] => acc
  | month_start, month_end, acc, daily_service :: rest =>
    let st :=
      if DateTime.Le (Date.midnight month_end) daily_service.sample_date then
        (month_end, month_end.addMonth)
      else (month_start, month_end)
    if DateTime.Le today (Date.midnight st.2) ∨ Date.Lt subscription_end_date st.2 then
      acc
    else
      let acc' :=
        if DateTime.Le (Date.midnight st.1) daily_service.sample_date ∧
           DateTime.Lt daily_service.sample_date (Date.midnight st.2) then
          updateMonthly acc st.1 (pyIntOfRat daily_service.num_services)
        else acc
      averagesLoop today subscription_end_date st.1 st.2 acc' rest

/-- `MonthlyServiceAverages._calculate_averages`, as the list of averages the
call appends to `self._monthly_service_averages`: nothing without daily data
or without both subscription bounds; otherwise the monthly tallies of the
daily loop, each averaged over its number of days carrying data. -/
def _calculate_averages (today : DateTime) (sub : SubscriptionDetailsForAggregation)
    (daily_services : List MonthlyServiceAverage) : List MonthlyServiceAverage :=
  if daily_services.isEmpty then []
  else
    match sub.start, sub.«end» with
    | some s, some e =>
      let month_start := (datetimeFromTimestamp s).date
      let month_end := month_start.addMonth
      let subscription_end_date := (datetimeFromTimestamp e).date
      (averagesLoop today subscription_end_date month_start month_end [] daily_services).map
        fun p => ⟨Date.midnight p.1, (p.2.num_services : ℚ) / (p.2.num_daily_services : ℚ)⟩
    | _, _ => []

/-- The mutable state of a `MonthlyServiceAverages` instance. -/
structure MonthlyServiceAverages where
  subscription_details : SubscriptionDetailsForAggregation
  daily_services : List MonthlyServiceAverage
  monthly_service_averages : List MonthlyServiceAverage
deriving DecidableEq, Repr

/-- `MonthlyServiceAverages.__init__`. -/
def MonthlyServiceAverages.init (subscription_details : SubscriptionDetailsForAggregation)
    (short_samples : List (Int × Int)) : MonthlyServiceAverages :=
  ⟨subscription_details, _calculate_daily_services short_samples, []⟩

/-- `MonthlyServiceAverages._get_last_service_report`. -/
def _get_last_service_report (avgs : List MonthlyServiceAverage) : Option ServiceReport :=
  match avgs.getLast? with
  | some a => some a.for_report
  | none => none

/-- The builtin `max(xs, key=f)`: folds left replacing the current maximum
only on a strictly greater key, hence returns the first maximal element. -/
def pyMaxBy (f : MonthlyServiceAverage → ℚ) :
    List MonthlyServiceAverage → Option MonthlyServiceAverage
  | [] => none
  | x :: xs => some (xs.foldl (fun b y => if f b < f y then y else b) x)

/-- `MonthlyServiceAverages._get_highest_service_report`. -/
def _get_highest_service_report (avgs : List MonthlyServiceAverage) : Option ServiceReport :=
  (pyMaxBy (fun d => d.num_services) avgs).map MonthlyServiceAverage.for_report

/-- `MonthlyServiceAverages._get_subscription_exceeded_first`: `None` for a
`None` real limit, else the first listed average reaching the limit. -/
def _get_subscription_exceeded_first (sub : SubscriptionDetailsForAggregation)
    (avgs : List MonthlyServiceAverage) : Option ServiceReport :=
  match sub.real_limit with
  | some l =>
    (avgs.find? (fun a => decide ((l : ℚ) ≤ a.num_services))).map
      MonthlyServiceAverage.for_report
  | none => none

/-- The `RawMonthlyServiceAggregation` report mapping. -/
structure RawMonthlyServiceAggregation where
  subscription_details : RawSubscriptionDetailsForAggregation
  daily_services : List ServiceReport
  monthly_service_averages : List ServiceReport
  last_service_report : Option ServiceReport
  highest_service_report : Option ServiceReport
  subscription_exceeded_first : Option ServiceReport
deriving DecidableEq, Repr

/-- `MonthlyServiceAverages.get_aggregation`: `_calculate_averages()` appends
to the instance's `_monthly_service_averages` list (it never clears it), then
the report is built from the instance state.  Returns the report together
with the mutated instance. -/
def MonthlyServiceAverages.get_aggregation (today : DateTime)
    (s : MonthlyServiceAverages) :
    RawMonthlyServiceAggregation × MonthlyServiceAverages :=
  let s' := { s with monthly_service_averages :=
    s.monthly_service_averages ++
      _calculate_averages today s.subscription_details s.daily_services }
  (⟨s'.subscription_details.for_report,
    s'.daily_services.map MonthlyServiceAverage.for_report,
    s'.monthly_service_averages.map MonthlyServiceAverage.for_report,
    _get_last_service_report s'.monthly_service_averages,
    _get_highest_service_report s'.monthly_service_averages,
    _get_subscription_exceeded_first s'.subscription_details
      s'.monthly_service_averages⟩,
   s')

/-! ## Claim-support definitions -/

/-- The nine supported protocol version literals. -/
def supportedProtocolVersions : List String :=
  ["1.0", "1.1", "1.2", "1.3", "1.4", "1.5", "2.0", "2.1", "3.0"]

/-- The three well-formed `SubscriptionDetailsLimit` variants: `fixed` with a
value in the fixed tier set, `unlimited` with the canonical value -1,
`custom` with a positive value outside the fixed tier set. -/
def limitVariantWellFormed (l : SubscriptionDetailsLimit) : Prop :=
  match l.type_ with
  | .fixed => toString l.value ∈ _SUBSCRIPTION_LIMITS_FIXED
  | .unlimited => l.value = -1
  | .custom => 0 < l.value ∧ toString l.value ∉ _SUBSCRIPTION_LIMITS_FIXED

/-- A minimally-valid raw sample mapping for the version ≤ 1.4 field sets: a
non-empty string `site_hash`, a string `platform`, no legacy `extensions`
entry, and the counters and metadata the 1.x parsers index directly. -/
def minimalSampleFields (m : List (String × PyVal)) : Prop :=
  (∃ s, pyLookup m "site_hash" = some (.str s) ∧ s ≠ "") ∧
  (∃ p, pyLookup m "platform" = some (.str p)) ∧
  pyLookup m "extensions" = Option.none ∧
  pyLookup m "extension_ntop" = Option.none ∧
  (∃ v, pyLookup m "version" = some v) ∧
  (∃ v, pyLookup m "edition" = some v) ∧
  (∃ v, pyLookup m "is_cma" = some v) ∧
  (∃ v, pyLookup m "sample_time" = some v) ∧
  (∃ v, pyLookup m "timezone" = some v) ∧
  (∃ v, pyLookup m "num_hosts" = some v) ∧
  (∃ v, pyLookup m "num_shadow_hosts" = some v) ∧
  (∃ v, pyLookup m "num_hosts_excluded" = some v) ∧
  (∃ v, pyLookup m "num_services" = some v) ∧
  (∃ v, pyLookup m "num_services_excluded" = some v)

/-- A concrete minimally-valid raw sample mapping (for witnesses). -/
def minimalRawSample : List (String × PyVal) :=
  [("site_hash", .str "h3x"), ("platform", .str "linux"),
   ("version", .str "2.2.0"), ("edition", .str "cre"),
   ("is_cma", .bool false), ("sample_time", .int 100),
   ("timezone", .str "UTC"), ("num_hosts", .int 5),
   ("num_shadow_hosts", .int 1), ("num_hosts_excluded", .int 0),
   ("num_services", .int 50), ("num_services_excluded", .int 2)]

/-- A concrete aggregation input (for witnesses): subscription 2024-01-01
(epoch 1704067200) to 2025-01-01 (epoch 1735689600), limit 100. -/
def aggSubW : SubscriptionDetailsForAggregation :=
  ⟨some 1704067200, some 1735689600, .num 100⟩

/-- A concrete "today" (for witnesses): 2024-06-01 midnight. -/
def todayW : DateTime := ⟨⟨2024, 6, 1⟩, 0⟩

/-- A concrete daily series (for witnesses): one day, 2024-01-05 (epoch
1704412800), with 10 services. -/
def dailyW : List MonthlyServiceAverage := _calculate_daily_services [(1704412800, 10)]

/-- A concrete free-tier aggregation (for C2): subscription 2024-01-01 to
2024-03-01 with the `("free", 3)` limit marker. -/
def subFreeW : SubscriptionDetailsForAggregation := ⟨some 1704067200, some 1709251200, .free⟩

/-- A concrete "today" for the free-tier aggregation: 2024-03-15. -/
def todayFreeW : DateTime := ⟨⟨2024, 3, 15⟩, 0⟩

/-- The free-tier instance over one day (2024-01-05) with 10 services. -/
def stateFreeW : MonthlyServiceAverages :=
  MonthlyServiceAverages.init subFreeW [(1704412800, 10)]

/-- The concrete aggregation instance over one day (for C8). -/
def stateW : MonthlyServiceAverages :=
  MonthlyServiceAverages.init aggSubW [(1704412800, 10)]

/-- The day keys of a sample sequence. -/
def sampleDays (ss : List (Int × Int)) : List Date :=
  ss.map (fun p => dailyKey p.1)

/-- The total count of the samples falling on day `d`. -/
def daySum (ss : List (Int × Int)) (d : Date) : Int :=
  ((ss.filter (fun p => decide (dailyKey p.1 = d))).map (fun p => p.2)).sum

/-- Association lookup on a daily tally. -/
def lookupDay (acc : List (Date × Int)) (d : Date) : Option Int :=
  (acc.find? (fun p => decide (p.1 = d))).map (fun p => p.2)

/-- The `k`-th month window start of the chain beginning at `w`
(`month_start` after `k` advances). -/
def windowIter : Nat → Date → Date
  | 0, w => w
  | k + 1, w => (windowIter k w).addMonth

/-- A day `d` lies in the month window `[w, w.addMonth)`. -/
def inWindow (w d : Date) : Prop := Date.Le w d ∧ Date.Lt d w.addMonth

instance (w d : Date) : Decidable (inWindow w d) :=
  inferInstanceAs (Decidable (_ ∧ _))

/-- The daily buckets, scanned in order starting with current window end
`me`, never skip a whole window: each bucket lies before the end of the
window current after its (at most one) advance.  This is the input
precondition under which the single forward pass of `_calculate_averages`
places every day in its containing window. -/
def noSkipFrom : Date → List MonthlyServiceAverage → Prop
  | _, [] => True
  | me, d :: rest =>
    DateTime.Lt d.sample_date (Date.midnight
      (if DateTime.Le (Date.midnight me) d.sample_date then me.addMonth else me)) ∧
    noSkipFrom (if DateTime.Le (Date.midnight me) d.sample_date then me.addMonth else me) rest

instance noSkipFromDec : (me : Date) → (ds : List MonthlyServiceAverage) →
    Decidable (noSkipFrom me ds)
  | _, [] => .isTrue trivial
  | me, d :: rest =>
    have _h2 := noSkipFromDec
      (if DateTime.Le (Date.midnight me) d.sample_date then me.addMonth else me) rest
    inferInstanceAs (Decidable (_ ∧ _))

/-- Association lookup on the monthly tally. -/
def lookupMonth (acc : List (Date × MonthCounter)) (w : Date) : Option MonthCounter :=
  (acc.find? (fun p => decide (p.1 = w))).map (fun p => p.2)

/-- Merge two optional month counters by summing. -/
def mergeOpt : Option MonthCounter → Option MonthCounter → Option MonthCounter
  | none, none => none
  | some c, none => some c
  | none, some g => some g
  | some c, some g =>
    some ⟨c.num_daily_services + g.num_daily_services, c.num_services + g.num_services⟩

/-- The month counter a window `w` should collect from the daily buckets
`ds`: the number of buckets in the window and the sum of their truncated
counts (none when no bucket falls in the window). -/
def groupOf (ds : List MonthlyServiceAverage) (w : Date) : Option MonthCounter :=
  let l := ds.filter (fun x => decide (inWindow w x.sample_date.date))
  if l.isEmpty then none
  else some ⟨l.length, (l.map (fun x => pyIntOfRat x.num_services)).sum⟩

/-- Daily buckets with a two-month gap (for C1): 2024-01-05 and 2024-03-05. -/
def dailyW2 : List MonthlyServiceAverage :=
  _calculate_daily_services [(1704412800, 10), (1709596800, 20)]

/-- Daily buckets in consecutive months (for C1): 2024-01-05 and 2024-02-05. -/
def dailyW3 : List MonthlyServiceAverage :=
  _calculate_daily_services [(1704412800, 10), (1707091200, 20)]

/-! ## Claims -/

/-- C9: for every source tag `s` and every detail mapping `dm`, parsing the
legacy 2-element `(s, dm)` form with `_parse_subscription_details` yields
exactly the same result as parsing the flat mapping `dm` directly: the
source tag never influences the parsed `SubscriptionDetails`. -/
theorem c9_source_tag_never_influences_result (s : PyVal) (dm : List (String × PyVal)) :
    _parse_subscription_details (.list [s, .dict dm]) =
      _parse_subscription_details (.dict dm) := rfl

/-- C4: for every `SubscriptionDetailsLimit` of the three variants (`fixed`
with a value in the fixed tier set, `unlimited` with canonical value -1,
`custom` with a positive value outside the fixed tier set),
`SubscriptionDetailsLimit.parse (limit.for_report())` returns a limit equal
to the original. -/
theorem c4_limit_for_report_roundtrip (l : SubscriptionDetailsLimit)
    (h : limitVariantWellFormed l) :
    SubscriptionDetailsLimit.parse l.for_report = .ok l := by
  obtain ⟨t, v⟩ := l
  cases t with
  | unlimited =>
    have hv : v = -1 := h
    subst hv
    rfl
  | fixed =>
    have hmem : toString v ∈ _SUBSCRIPTION_LIMITS_FIXED := h
    have hv : ¬(v = -1) := by
      rintro rfl
      exact absurd hmem (by decide)
    simp only [SubscriptionDetailsLimit.for_report, SubscriptionDetailsLimitType.name,
      SubscriptionDetailsLimit.parse, SubscriptionDetailsLimit.parseParts,
      isUnlimitedTag, pyToInt, pyStrOf]
    simp [Bind.bind, Except.bind, Pure.pure, Except.pure, hv, hmem]
  | custom =>
    have hpos : (0 : Int) < v := h.1
    have hmem : toString v ∉ _SUBSCRIPTION_LIMITS_FIXED := h.2
    have hv : ¬(v = -1) := by omega
    simp only [SubscriptionDetailsLimit.for_report, SubscriptionDetailsLimitType.name,
      SubscriptionDetailsLimit.parse, SubscriptionDetailsLimit.parseParts,
      isUnlimitedTag, pyToInt, pyStrOf]
    simp [Bind.bind, Except.bind, Pure.pure, Except.pure, hv, hmem]

/-- Witness for C4: the round trip at a concrete limit of each variant,
including the boundary value -1. -/
theorem c4_limit_for_report_roundtrip_witness :
    SubscriptionDetailsLimit.parse (SubscriptionDetailsLimit.for_report ⟨.fixed, 3000⟩) =
        .ok ⟨.fixed, 3000⟩ ∧
    SubscriptionDetailsLimit.parse (SubscriptionDetailsLimit.for_report ⟨.unlimited, -1⟩) =
        .ok ⟨.unlimited, -1⟩ ∧
    SubscriptionDetailsLimit.parse (SubscriptionDetailsLimit.for_report ⟨.custom, 4321⟩) =
        .ok ⟨.custom, 4321⟩ :=
  ⟨c4_limit_for_report_roundtrip ⟨.fixed, 3000⟩ (by unfold limitVariantWellFormed; decide),
   c4_limit_for_report_roundtrip ⟨.unlimited, -1⟩ (by unfold limitVariantWellFormed; decide),
   c4_limit_for_report_roundtrip ⟨.custom, 4321⟩ (by unfold limitVariantWellFormed; decide)⟩

theorem c7_parse_protocol_version_characterization (raw : PyVal) :
    (∀ v, parse_protocol_version raw = .ok v ↔
        ∃ m, raw = .dict m ∧ pyLookup m "VERSION" = some (.str v) ∧
          v ∈ supportedProtocolVersions) ∧
    ((∀ m, raw ≠ .dict m) → parse_protocol_version raw = .error .typeError) ∧
    (∀ m, raw = .dict m → (∀ s, pyLookup m "VERSION" ≠ some (.str s)) →
        parse_protocol_version raw = .error .typeError) ∧
    (∀ m s, raw = .dict m → pyLookup m "VERSION" = some (.str s) →
        s ∉ supportedProtocolVersions →
        parse_protocol_version raw = .error .valueError) := by
  cases raw with
  | dict m =>
    refine ⟨?_, ?_, ?_, ?_⟩
    · intro v
      cases hl : pyLookup m "VERSION" with
      | none =>
        have hres : parse_protocol_version (.dict m) = .error .typeError := by
          simp [parse_protocol_version, hl]
        rw [hres]
        constructor
        · intro h; exact absurd h (by simp)
        · rintro ⟨m', hm, hlook, -⟩
          obtain rfl : m' = m := (PyVal.dict.inj hm).symm
          rw [hl] at hlook
          exact absurd hlook (by simp)
      | some val =>
        cases val with
        | str s =>
          by_cases hmem : s ∈ supportedProtocolVersions
          · have hres : parse_protocol_version (.dict m) = .ok s := by
              have hmem' := hmem
              simp only [supportedProtocolVersions, List.mem_cons,
                List.not_mem_nil, or_false] at hmem'
              rcases hmem' with rfl | rfl | rfl | rfl | rfl | rfl | rfl | rfl | rfl <;>
                simp [parse_protocol_version, hl]
            rw [hres]
            constructor
            · intro h
              obtain rfl := Except.ok.inj h
              exact ⟨m, rfl, hl, hmem⟩
            · rintro ⟨m', hm, hlook, -⟩
              obtain rfl : m' = m := (PyVal.dict.inj hm).symm
              rw [hl] at hlook
              exact congrArg Except.ok (PyVal.str.inj (Option.some.inj hlook))
          · have hres : parse_protocol_version (.dict m) = .error .valueError := by
              have hmem' := hmem
              simp only [supportedProtocolVersions, List.mem_cons,
                List.not_mem_nil, or_false, not_or] at hmem'
              obtain ⟨h1, h2, h3, h4, h5, h6, h7, h8, h9⟩ := hmem'
              simp [parse_protocol_version, hl, h1, h2, h3, h4, h5, h6, h7, h8, h9]
            rw [hres]
            constructor
            · intro h; exact absurd h (by simp)
            · rintro ⟨m', hm, hlook, hv⟩
              obtain rfl : m' = m := (PyVal.dict.inj hm).symm
              rw [hl] at hlook
              obtain rfl := PyVal.str.inj (Option.some.inj hlook)
              exact absurd hv hmem
        | int n =>
          have hres : parse_protocol_version (.dict m) = .error .typeError := by
            simp [parse_protocol_version, hl]
          rw [hres]
          constructor
          · intro h; exact absurd h (by simp)
          · rintro ⟨m', hm, hlook, -⟩
            obtain rfl : m' = m := (PyVal.dict.inj hm).symm
            rw [hl] at hlook
            exact absurd hlook (by simp)
        | bool b =>
          have hres : parse_protocol_version (.dict m) = .error .typeError := by
            simp [parse_protocol_version, hl]
          rw [hres]
          constructor
          · intro h; exact absurd h (by simp)
          · rintro ⟨m', hm, hlook, -⟩
            obtain rfl : m' = m := (PyVal.dict.inj hm).symm
            rw [hl] at hlook
            exact absurd hlook (by simp)
        | list xs =>
          have hres : parse_protocol_version (.dict m) = .error .typeError := by
            simp [parse_protocol_version, hl]
          rw [hres]
          constructor
          · intro h; exact absurd h (by simp)
          · rintro ⟨m', hm, hlook, -⟩
            obtain rfl : m' = m := (PyVal.dict.inj hm).symm
            rw [hl] at hlook
            exact absurd hlook (by simp)
        | dict dm =>
          have hres : parse_protocol_version (.dict m) = .error .typeError := by
            simp [parse_protocol_version, hl]
          rw [hres]
          constructor
          · intro h; exact absurd h (by simp)
          · rintro ⟨m', hm, hlook, -⟩
            obtain rfl : m' = m := (PyVal.dict.inj hm).symm
            rw [hl] at hlook
            exact absurd hlook (by simp)
        | none =>
          have hres : parse_protocol_version (.dict m) = .error .typeError := by
            simp [parse_protocol_version, hl]
          rw [hres]
          constructor
          · intro h; exact absurd h (by simp)
          · rintro ⟨m', hm, hlook, -⟩
            obtain rfl : m' = m := (PyVal.dict.inj hm).symm
            rw [hl] at hlook
            exact absurd hlook (by simp)
    · intro hne
      exact absurd rfl (hne m)
    · intro m' hm hns
      rw [hm]
      cases hl : pyLookup m' "VERSION" with
      | none => simp [parse_protocol_version, hl]
      | some val =>
        cases val with
        | str s => exact absurd hl (hns s)
        | int n => simp [parse_protocol_version, hl]
        | bool b => simp [parse_protocol_version, hl]
        | list xs => simp [parse_protocol_version, hl]
        | dict dm => simp [parse_protocol_version, hl]
        | none => simp [parse_protocol_version, hl]
    · intro m' s hm hl hmem
      rw [hm]
      simp only [supportedProtocolVersions, List.mem_cons,
        List.not_mem_nil, or_false, not_or] at hmem
      obtain ⟨h1, h2, h3, h4, h5, h6, h7, h8, h9⟩ := hmem
      simp [parse_protocol_version, hl, h1, h2, h3, h4, h5, h6, h7, h8, h9]
  | str s =>
    refine ⟨?_, ?_, ?_, ?_⟩
    · intro v
      constructor
      · intro h; exact absurd h (by simp [parse_protocol_version])
      · rintro ⟨m', hm, -, -⟩; exact absurd hm (by simp)
    · intro _; rfl
    · intro m' hm; exact absurd hm (by simp)
    · intro m' _ hm; exact absurd hm (by simp)
  | int n =>
    refine ⟨?_, ?_, ?_, ?_⟩
    · intro v
      constructor
      · intro h; exact absurd h (by simp [parse_protocol_version])
      · rintro ⟨m', hm, -, -⟩; exact absurd hm (by simp)
    · intro _; rfl
    · intro m' hm; exact absurd hm (by simp)
    · intro m' _ hm; exact absurd hm (by simp)
  | bool b =>
    refine ⟨?_, ?_, ?_, ?_⟩
    · intro v
      constructor
      · intro h; exact absurd h (by simp [parse_protocol_version])
      · rintro ⟨m', hm, -, -⟩; exact absurd hm (by simp)
    · intro _; rfl
    · intro m' hm; exact absurd hm (by simp)
    · intro m' _ hm; exact absurd hm (by simp)
  | list xs =>
    refine ⟨?_, ?_, ?_, ?_⟩
    · intro v
      constructor
      · intro h; exact absurd h (by simp [parse_protocol_version])
      · rintro ⟨m', hm, -, -⟩; exact absurd hm (by simp)
    · intro _; rfl
    · intro m' hm; exact absurd hm (by simp)
    · intro m' _ hm; exact absurd hm (by simp)
  | none =>
    refine ⟨?_, ?_, ?_, ?_⟩
    · intro v
      constructor
      · intro h; exact absurd h (by simp [parse_protocol_version])
      · rintro ⟨m', hm, -, -⟩; exact absurd hm (by simp)
    · intro _; rfl
    · intro m' hm; exact absurd hm (by simp)
    · intro m' _ hm; exact absurd hm (by simp)

/-- Witness for C7: the four behaviours at concrete inputs. -/
theorem c7_parse_protocol_version_characterization_witness :
    parse_protocol_version (.dict [("VERSION", .str "2.0")]) = .ok "2.0" ∧
    parse_protocol_version (.str "x") = .error .typeError ∧
    parse_protocol_version (.dict [("VERSION", .int 5)]) = .error .typeError ∧
    parse_protocol_version (.dict [("VERSION", .str "1.6")]) = .error .valueError :=
  ⟨((c7_parse_protocol_version_characterization
      (.dict [("VERSION", .str "2.0")])).1 "2.0").mpr ⟨_, rfl, rfl, by decide⟩,
   (c7_parse_protocol_version_characterization (.str "x")).2.1
     (fun m h => by simp at h),
   (c7_parse_protocol_version_characterization
      (.dict [("VERSION", .int 5)])).2.2.1 _ rfl
     (fun s h => by simp [pyLookup] at h),
   (c7_parse_protocol_version_characterization
      (.dict [("VERSION", .str "1.6")])).2.2.2 _ "1.6" rfl rfl (by decide)⟩

theorem except_throw_bind {α β : Type} (e : PyErr) (f : α → Except PyErr β) :
    (throw e : Except PyErr α) >>= f = Except.error e := rfl

theorem except_ok_bind {α β : Type} (a : α) (f : α → Except PyErr β) :
    (Except.ok a : Except PyErr α) >>= f = f a := rfl

theorem pyTruthy_emptyStr : pyTruthy (.str "") = false := rfl

theorem pyTruthy_pynone : pyTruthy .none = false := rfl

theorem pyLookup_nil (k : String) : pyLookup [] k = Option.none := rfl

/-- C5: `parse_sample` of versions 1.5, 2.0, 2.1 and 3.0 fails with a
`ValueError` on every raw sample mapping whose `instance_id` is absent or
the empty string, while versions 1.0 through 1.4 succeed on an otherwise
minimally-valid sample and use the caller-supplied `instance_id` regardless
of whether the raw record carries one. -/
theorem c5_instance_id_version_policy :
    (∀ (m : List (String × PyVal)) (iid : Option String) (sh : String),
      (pyLookup m "instance_id" = Option.none ∨
        pyLookup m "instance_id" = some (.str "")) →
      ParserV1_5.parse_sample iid sh (.dict m) = .error .valueError ∧
      ParserV2_0.parse_sample iid sh (.dict m) = .error .valueError ∧
      ParserV2_1.parse_sample iid sh (.dict m) = .error .valueError ∧
      ParserV3_0.parse_sample iid sh (.dict m) = .error .valueError) ∧
    (∀ (m : List (String × PyVal)) (iid : Option String) (sh : String),
      minimalSampleFields m →
      (∃ smp, ParserV1_0.parse_sample iid sh (.dict m) = .ok smp ∧
        smp.instance_id = iid) ∧
      (∃ smp, ParserV1_1.parse_sample iid sh (.dict m) = .ok smp ∧
        smp.instance_id = iid) ∧
      (∃ smp, ParserV1_2.parse_sample iid sh (.dict m) = .ok smp ∧
        smp.instance_id = iid) ∧
      (∃ smp, ParserV1_3.parse_sample iid sh (.dict m) = .ok smp ∧
        smp.instance_id = iid) ∧
      (∃ smp, ParserV1_4.parse_sample iid sh (.dict m) = .ok smp ∧
        smp.instance_id = iid)) := by
  constructor
  · intro m iid sh h
    refine ⟨?_, ?_, ?_, ?_⟩ <;>
      rcases h with h | h <;>
        simp [ParserV1_5.parse_sample, ParserV2_0.parse_sample, ParserV2_1.parse_sample,
          ParserV3_0.parse_sample, _parse_sample_v2_0, h,
          pyTruthy_emptyStr, pyTruthy_pynone, except_throw_bind]
  · intro m iid sh hmin
    obtain ⟨⟨s, hs, hsne⟩, ⟨p, hp⟩, hext, hext2, ⟨v1, h1⟩, ⟨v2, h2⟩, ⟨v3, h3⟩, ⟨v4, h4⟩,
      ⟨v5, h5⟩, ⟨v6, h6⟩, ⟨v7, h7⟩, ⟨v8, h8⟩, ⟨v9, h9⟩, ⟨v10, h10⟩⟩ := hmin
    refine ⟨?_, ?_, ?_, ?_, ?_⟩
    · refine ⟨⟨iid, .str s, v1, v2, _parse_platform p, v3, v4, v5, v6, .int 0, .int 0, .int 0, v9, .int 0, .int 0, .int 0, .int 0, .int 0, .bool false⟩, ?_, rfl⟩
      simp [ParserV1_0.parse_sample, pyIndex, platformField,
        LicenseUsageExtensions.parse_from_sample, pyTruthy, except_ok_bind, pyLookup_nil,
        hs, hsne, hext, hext2, hp, h1, h2, h3, h4, h5, h6, h7, h8, h9, h10]
    · refine ⟨⟨iid, .str s, v1, v2, _parse_platform p, v3, v4, v5, v6, .int 0, .int 0, v8, v9, .int 0, .int 0, v10, .int 0, .int 0, .bool false⟩, ?_, rfl⟩
      simp [ParserV1_1.parse_sample, _parse_sample_v1_1, pyIndex, platformField,
        LicenseUsageExtensions.parse_from_sample, pyTruthy, except_ok_bind, pyLookup_nil,
        hs, hsne, hext, hext2, hp, h1, h2, h3, h4, h5, h6, h7, h8, h9, h10]
    · refine ⟨⟨iid, .str s, v1, v2, _parse_platform p, v3, v4, v5, v6, .int 0, .int 0, v8, v9, .int 0, .int 0, v10, .int 0, .int 0, .bool false⟩, ?_, rfl⟩
      simp [ParserV1_2.parse_sample, _parse_sample_v1_1, pyIndex, platformField,
        LicenseUsageExtensions.parse_from_sample, pyTruthy, except_ok_bind, pyLookup_nil,
        hs, hsne, hext, hext2, hp, h1, h2, h3, h4, h5, h6, h7, h8, h9, h10]
    · refine ⟨⟨iid, .str s, v1, v2, _parse_platform p, v3, v4, v5, v6, .int 0, .int 0, v8, v9, .int 0, .int 0, v10, .int 0, .int 0, .bool false⟩, ?_, rfl⟩
      simp [ParserV1_3.parse_sample, _parse_sample_v1_1, pyIndex, platformField,
        LicenseUsageExtensions.parse_from_sample, pyTruthy, except_ok_bind, pyLookup_nil,
        hs, hsne, hext, hext2, hp, h1, h2, h3, h4, h5, h6, h7, h8, h9, h10]
    · refine ⟨⟨iid, .str s, v1, v2, _parse_platform p, v3, v4, v5, v6, .int 0, v7, v8, v9, .int 0, .int 0, v10, .int 0, .int 0, .bool false⟩, ?_, rfl⟩
      simp [ParserV1_4.parse_sample, pyIndex, platformField,
        LicenseUsageExtensions.parse_from_sample, pyTruthy, except_ok_bind, pyLookup_nil,
        hs, hsne, hext, hext2, hp, h1, h2, h3, h4, h5, h6, h7, h8, h9, h10]

/-- C10: for every protocol version's `parse_sample`, a raw record carrying
a `site_hash` key whose value is the empty string makes parsing fail with a
`ValueError`, whatever the caller-supplied fallback: the fallback is
consulted only when the key is absent. -/
theorem c10_present_empty_site_hash_fails (m : List (String × PyVal))
    (iid : Option String) (sh : String)
    (h : pyLookup m "site_hash" = some (.str "")) :
    ParserV1_0.parse_sample iid sh (.dict m) = .error .valueError ∧
    ParserV1_1.parse_sample iid sh (.dict m) = .error .valueError ∧
    ParserV1_2.parse_sample iid sh (.dict m) = .error .valueError ∧
    ParserV1_3.parse_sample iid sh (.dict m) = .error .valueError ∧
    ParserV1_4.parse_sample iid sh (.dict m) = .error .valueError ∧
    ParserV1_5.parse_sample iid sh (.dict m) = .error .valueError ∧
    ParserV2_0.parse_sample iid sh (.dict m) = .error .valueError ∧
    ParserV2_1.parse_sample iid sh (.dict m) = .error .valueError ∧
    ParserV3_0.parse_sample iid sh (.dict m) = .error .valueError := by
  refine ⟨?_, ?_, ?_, ?_, ?_, ?_, ?_, ?_, ?_⟩ <;>
    [skip; skip; skip; skip; skip;
     (by_cases hi : pyTruthy ((pyLookup m "instance_id").getD .none));
     (by_cases hi : pyTruthy ((pyLookup m "instance_id").getD .none));
     (by_cases hi : pyTruthy ((pyLookup m "instance_id").getD .none));
     (by_cases hi : pyTruthy ((pyLookup m "instance_id").getD .none))] <;>
    simp [ParserV1_0.parse_sample, ParserV1_1.parse_sample, ParserV1_2.parse_sample,
      ParserV1_3.parse_sample, ParserV1_4.parse_sample, ParserV1_5.parse_sample,
      ParserV2_0.parse_sample, ParserV2_1.parse_sample, ParserV3_0.parse_sample,
      _parse_sample_v1_1, _parse_sample_v2_0, h, pyTruthy_emptyStr, except_throw_bind, *]

/-- Witness for C5: version 1.5 rejects a sample without `instance_id`,
version 1.0 accepts the same sample and uses the caller-supplied id. -/
theorem c5_instance_id_version_policy_witness :
    ParserV1_5.parse_sample (some "u") "fb" (.dict minimalRawSample) = .error .valueError ∧
    (∃ smp, ParserV1_0.parse_sample (some "u") "fb" (.dict minimalRawSample) = .ok smp ∧
      smp.instance_id = some "u") :=
  ⟨(c5_instance_id_version_policy.1 minimalRawSample (some "u") "fb" (Or.inl rfl)).1,
   (c5_instance_id_version_policy.2 minimalRawSample (some "u") "fb"
      ⟨⟨"h3x", rfl, by decide⟩, ⟨"linux", rfl⟩, rfl, rfl, ⟨_, rfl⟩, ⟨_, rfl⟩, ⟨_, rfl⟩,
       ⟨_, rfl⟩, ⟨_, rfl⟩, ⟨_, rfl⟩, ⟨_, rfl⟩, ⟨_, rfl⟩, ⟨_, rfl⟩, ⟨_, rfl⟩⟩).1⟩

/-- Witness for C10: the nine parsers at a concrete record with an empty
`site_hash` value and a non-empty fallback. -/
theorem c10_present_empty_site_hash_fails_witness :
    ParserV1_0.parse_sample (some "u") "fallback" (.dict [("site_hash", .str "")]) =
        .error .valueError ∧
    ParserV1_1.parse_sample (some "u") "fallback" (.dict [("site_hash", .str "")]) =
        .error .valueError ∧
    ParserV1_2.parse_sample (some "u") "fallback" (.dict [("site_hash", .str "")]) =
        .error .valueError ∧
    ParserV1_3.parse_sample (some "u") "fallback" (.dict [("site_hash", .str "")]) =
        .error .valueError ∧
    ParserV1_4.parse_sample (some "u") "fallback" (.dict [("site_hash", .str "")]) =
        .error .valueError ∧
    ParserV1_5.parse_sample (some "u") "fallback" (.dict [("site_hash", .str "")]) =
        .error .valueError ∧
    ParserV2_0.parse_sample (some "u") "fallback" (.dict [("site_hash", .str "")]) =
        .error .valueError ∧
    ParserV2_1.parse_sample (some "u") "fallback" (.dict [("site_hash", .str "")]) =
        .error .valueError ∧
    ParserV3_0.parse_sample (some "u") "fallback" (.dict [("site_hash", .str "")]) =
        .error .valueError :=
  c10_present_empty_site_hash_fails [("site_hash", .str "")] (some "u") "fallback" rfl

theorem DateTime.lt_of_not_le {a b : DateTime} (h : ¬ DateTime.Le a b) :
    DateTime.Lt b a := by
  obtain ⟨⟨ay, am, ad⟩, as⟩ := a
  obtain ⟨⟨cy, cm, cd⟩, cs⟩ := b
  simp only [DateTime.Le, DateTime.Lt, Date.Lt, Date.mk.injEq] at *
  omega

theorem Date.le_of_not_lt {a b : Date} (h : ¬ Date.Lt a b) : Date.Le b a := by
  obtain ⟨ay, am, ad⟩ := a
  obtain ⟨cy, cm, cd⟩ := b
  simp only [Date.Le, Date.Lt] at *
  omega

theorem Date.lt_trans_le {a b c : Date} (h1 : Date.Lt a b) (h2 : Date.Le b c) :
    Date.Lt a c := by
  obtain ⟨ay, am, ad⟩ := a
  obtain ⟨cy, cm, cd⟩ := b
  obtain ⟨ey, em, ed⟩ := c
  simp only [Date.Le, Date.Lt] at *
  omega

theorem Date.lt_addMonth (w : Date) : Date.Lt w w.addMonth := by
  obtain ⟨wy, wm, wd⟩ := w
  simp only [Date.addMonth, Date.Lt]
  split <;> simp

theorem updateMonthly_keys {acc : List (Date × MonthCounter)} {w : Date} {svc : Int} :
    ∀ p ∈ updateMonthly acc w svc, p.1 = w ∨ ∃ c, (p.1, c) ∈ acc := by
  induction acc with
  | nil => intro p hp; simp [updateMonthly] at hp; simp [hp]
  | cons q rest ih =>
    intro p hp
    obtain ⟨k, c⟩ := q
    simp only [updateMonthly] at hp
    split at hp
    · rcases List.mem_cons.mp hp with rfl | hmem
      · right; exact ⟨_, List.mem_cons_self _ _⟩
      · right; exact ⟨p.2, List.mem_cons_of_mem _ (Prod.mk.eta ▸ hmem)⟩
    · rcases List.mem_cons.mp hp with rfl | hmem
      · right; exact ⟨_, List.mem_cons_self _ _⟩
      · rcases ih p hmem with h | ⟨c', hc'⟩
        · exact Or.inl h
        · exact Or.inr ⟨c', List.mem_cons_of_mem _ hc'⟩

theorem averagesLoop_window_sound (today : DateTime) (subEnd : Date)
    (ds : List MonthlyServiceAverage) :
    ∀ ms me acc, me = ms.addMonth →
      (∀ p ∈ acc, ¬ DateTime.Le today (Date.midnight p.1.addMonth) ∧
        ¬ Date.Lt subEnd p.1.addMonth) →
      ∀ p ∈ averagesLoop today subEnd ms me acc ds,
        ¬ DateTime.Le today (Date.midnight p.1.addMonth) ∧
        ¬ Date.Lt subEnd p.1.addMonth := by
  induction ds with
  | nil => intro ms me acc hme hacc p hp; exact hacc p hp
  | cons d rest ih =>
    intro ms me acc hme hacc p hp
    rw [averagesLoop] at hp
    by_cases hadv : DateTime.Le (Date.midnight me) d.sample_date
    · simp only [hadv, if_true, true_and] at hp
      by_cases hbrk : DateTime.Le today (Date.midnight me.addMonth) ∨
          Date.Lt subEnd me.addMonth
      · simp only [hbrk, if_true] at hp
        exact hacc p hp
      · simp only [hbrk, if_false] at hp
        refine ih me me.addMonth _ rfl ?_ p hp
        intro q hq
        by_cases hin : DateTime.Lt d.sample_date (Date.midnight me.addMonth)
        · simp only [hin, if_true] at hq
          rcases updateMonthly_keys q hq with hk | ⟨c', hc'⟩
          · rw [hk]
            exact ⟨fun h => hbrk (Or.inl h), fun h => hbrk (Or.inr h)⟩
          · have := hacc (q.1, c') hc'
            exact this
        · simp only [hin, if_false] at hq
          exact hacc q hq
    · simp only [hadv, if_false] at hp
      by_cases hbrk : DateTime.Le today (Date.midnight me) ∨ Date.Lt subEnd me
      · simp only [hbrk, if_true] at hp
        exact hacc p hp
      · simp only [hbrk, if_false] at hp
        refine ih ms me _ hme ?_ p hp
        intro q hq
        by_cases hin : DateTime.Le (Date.midnight ms) d.sample_date ∧
            DateTime.Lt d.sample_date (Date.midnight me)
        · simp only [hin, if_true] at hq
          rcases updateMonthly_keys q hq with hk | ⟨c', hc'⟩
          · rw [hk, ← hme]
            exact ⟨fun h => hbrk (Or.inl h), fun h => hbrk (Or.inr h)⟩
          · exact hacc (q.1, c') hc'
        · simp only [hin, if_false] at hq
          exact hacc q hq

/-- C3: with both subscription bounds present, every month window appearing
in the monthly averages has its `month_end` strictly before "today" and not
past the subscription end date, and its start strictly before the
subscription end date: a window whose `month_end` reaches or passes today,
or that starts at or after the subscription end date, is excluded. -/
theorem c3_only_fully_elapsed_months_averaged (today : DateTime)
    (sub : SubscriptionDetailsForAggregation) (ds : List MonthlyServiceAverage)
    (s e : Int) (_hs : sub.start = some s) (he : sub.«end» = some e)
    (a : MonthlyServiceAverage) (ha : a ∈ _calculate_averages today sub ds) :
    DateTime.Lt (Date.midnight a.sample_date.date.addMonth) today ∧
    Date.Le a.sample_date.date.addMonth (datetimeFromTimestamp e).date ∧
    Date.Lt a.sample_date.date (datetimeFromTimestamp e).date := by
  unfold _calculate_averages at ha
  split at ha
  · simp at ha
  · split at ha
    · rename_i s' e' hs' he'
      rw [he, Option.some.injEq] at he'
      subst he'
      obtain ⟨a', ha', rfl⟩ := List.mem_map.mp ha
      have hsound := averagesLoop_window_sound today (datetimeFromTimestamp e).date ds
        _ _ [] rfl (by simp) a' ha'
      exact ⟨DateTime.lt_of_not_le hsound.1, Date.le_of_not_lt hsound.2,
        Date.lt_trans_le (Date.lt_addMonth _) (Date.le_of_not_lt hsound.2)⟩
    · simp at ha

set_option maxRecDepth 40000 in
/-- Witness for C3: the January 2024 window of the concrete aggregation ends
before today and inside the subscription. -/
theorem c3_only_fully_elapsed_months_averaged_witness :
    DateTime.Lt (Date.midnight (Date.addMonth ⟨2024, 1, 1⟩)) todayW ∧
    Date.Le (Date.addMonth ⟨2024, 1, 1⟩) (datetimeFromTimestamp 1735689600).date ∧
    Date.Lt (⟨2024, 1, 1⟩ : Date) (datetimeFromTimestamp 1735689600).date :=
  c3_only_fully_elapsed_months_averaged todayW aggSubW dailyW 1704067200 1735689600
    rfl rfl ⟨Date.midnight ⟨2024, 1, 1⟩, 10⟩ (by
      have h0 : _calculate_averages todayW aggSubW dailyW =
          [⟨Date.midnight ⟨2024, 1, 1⟩, ((10 : Int) : ℚ) / ((1 : Int) : ℚ)⟩] := rfl
      rw [h0]
      norm_num)

theorem DateTime.lt_irrefl (a : DateTime) : ¬ DateTime.Lt a a := by
  obtain ⟨⟨ay, am, ad⟩, as⟩ := a
  simp only [DateTime.Lt, Date.Lt]
  omega

theorem DateTime.lt_asymm {a b : DateTime} (h : DateTime.Lt a b) :
    ¬ DateTime.Lt b a := by
  obtain ⟨⟨ay, am, ad⟩, as⟩ := a
  obtain ⟨⟨cy, cm, cd⟩, cs⟩ := b
  simp only [DateTime.Lt, Date.Lt, Date.mk.injEq, DateTime.mk.injEq] at *
  omega

theorem find_first_reaching_characterization (l : Int)
    (avgs : List MonthlyServiceAverage)
    (hsorted : avgs.Sorted (fun a b => DateTime.Lt a.sample_date b.sample_date)) :
    ∀ a, avgs.find? (fun a => decide ((l : ℚ) ≤ a.num_services)) = some a ↔
      a ∈ avgs ∧ (l : ℚ) ≤ a.num_services ∧
        ∀ b ∈ avgs, DateTime.Lt b.sample_date a.sample_date →
          b.num_services < (l : ℚ) := by
  induction avgs with
  | nil => intro a; simp
  | cons h t ih =>
    intro a
    have hhead : ∀ b ∈ t, DateTime.Lt h.sample_date b.sample_date :=
      (List.pairwise_cons.mp hsorted).1
    have htail := ih ((List.pairwise_cons.mp hsorted).2)
    by_cases hp : (l : ℚ) ≤ h.num_services
    · rw [List.find?_cons_of_pos _ (by simpa using hp)]
      constructor
      · rintro h'
        obtain rfl := Option.some.inj h'
        exact ⟨List.mem_cons_self _ _, hp, by
          intro b hb hlt
          rcases List.mem_cons.mp hb with rfl | hbt
          · exact absurd hlt (DateTime.lt_irrefl _)
          · exact absurd hlt (DateTime.lt_asymm (hhead b hbt))⟩
      · rintro ⟨hmem, hge, hmin⟩
        rcases List.mem_cons.mp hmem with rfl | hat
        · rfl
        · exact absurd hp (by
            have := hmin h (List.mem_cons_self _ _) (hhead a hat)
            exact not_le.mpr this)
    · rw [List.find?_cons_of_neg _ (by simpa using hp)]
      rw [htail a]
      constructor
      · rintro ⟨hmem, hge, hmin⟩
        refine ⟨List.mem_cons_of_mem _ hmem, hge, ?_⟩
        intro b hb hlt
        rcases List.mem_cons.mp hb with rfl | hbt
        · exact not_le.mp hp
        · exact hmin b hbt hlt
      · rintro ⟨hmem, hge, hmin⟩
        rcases List.mem_cons.mp hmem with rfl | hat
        · exact absurd hge hp
        · exact ⟨hat, hge, fun b hb hlt => hmin b (List.mem_cons_of_mem _ hb) hlt⟩

/-- C2 (amended): `_get_subscription_exceeded_first` returns none for an
unlimited or absent limit; for the free-tier marker the numeric limit is 3
(not none); and for a present real limit it returns none exactly when no
month reaches the limit, and otherwise the earliest month (in chronological
order, the list being sorted) whose average reaches or exceeds the limit. -/
theorem c2_subscription_exceeded_first_amended (sub : SubscriptionDetailsForAggregation)
    (avgs : List MonthlyServiceAverage)
    (hsorted : avgs.Sorted (fun a b => DateTime.Lt a.sample_date b.sample_date)) :
    ((sub.limit = .unlimited ∨ sub.limit = .null) →
      _get_subscription_exceeded_first sub avgs = none) ∧
    (sub.is_free = true → sub.real_limit = some 3) ∧
    (∀ l, sub.real_limit = some l →
      ((_get_subscription_exceeded_first sub avgs = none ↔
         ∀ a ∈ avgs, a.num_services < (l : ℚ)) ∧
       (∀ r, _get_subscription_exceeded_first sub avgs = some r ↔
         ∃ a, a ∈ avgs ∧ r = a.for_report ∧ (l : ℚ) ≤ a.num_services ∧
           ∀ b ∈ avgs, DateTime.Lt b.sample_date a.sample_date →
             b.num_services < (l : ℚ)))) := by
  refine ⟨?_, ?_, ?_⟩
  · rintro (h | h) <;>
      simp [_get_subscription_exceeded_first, SubscriptionDetailsForAggregation.real_limit, h]
  · intro h
    cases hl : sub.limit <;>
      simp [SubscriptionDetailsForAggregation.is_free,
        SubscriptionDetailsForAggregation.real_limit, hl] at h ⊢
  · intro l hl
    constructor
    · rw [_get_subscription_exceeded_first, hl]
      rw [Option.map_eq_none', List.find?_eq_none]
      constructor
      · intro h a ha
        simpa using h a ha
      · intro h a ha
        simpa using h a ha
    · intro r
      rw [_get_subscription_exceeded_first, hl]
      constructor
      · intro h
        obtain ⟨a, hfind, hrep⟩ := Option.map_eq_some'.mp h
        obtain ⟨hmem, hge, hmin⟩ :=
          (find_first_reaching_characterization l avgs hsorted a).mp hfind
        exact ⟨a, hmem, hrep.symm, hge, hmin⟩
      · rintro ⟨a, hmem, hrep, hge, hmin⟩
        exact Option.map_eq_some'.mpr
          ⟨a, (find_first_reaching_characterization l avgs hsorted a).mpr
            ⟨hmem, hge, hmin⟩, hrep.symm⟩


set_option maxRecDepth 40000 in
/-- Counterexample for C2 as stated: a free-tier aggregation (the
`("free", 3)` marker) whose January average is 10 reports a first-exceeded
month instead of none. -/
theorem c2_counterexample_free_not_none :
    subFreeW.is_free = true ∧
    (MonthlyServiceAverages.get_aggregation todayFreeW stateFreeW).1.subscription_exceeded_first
      ≠ none := by
  refine ⟨rfl, ?_⟩
  have h0 : (MonthlyServiceAverages.get_aggregation todayFreeW
        stateFreeW).1.subscription_exceeded_first
      = _get_subscription_exceeded_first subFreeW
          [⟨Date.midnight ⟨2024, 1, 1⟩, ((10 : Int) : ℚ) / ((1 : Int) : ℚ)⟩] := rfl
  rw [h0, show ((10 : Int) : ℚ) / ((1 : Int) : ℚ) = 10 by norm_num]
  rw [show _get_subscription_exceeded_first subFreeW
        [⟨Date.midnight ⟨2024, 1, 1⟩, (10 : ℚ)⟩]
      = some (⟨Date.midnight ⟨2024, 1, 1⟩, (10 : ℚ)⟩ : MonthlyServiceAverage).for_report by
    simp [_get_subscription_exceeded_first, subFreeW,
      SubscriptionDetailsForAggregation.real_limit, List.find?]
    norm_num]
  simp

/-- Witness for C2 (amended) at concrete inputs: an unlimited limit yields
none, the free marker has real limit 3. -/
theorem c2_subscription_exceeded_first_amended_witness :
    _get_subscription_exceeded_first ⟨some 1, some 2, .unlimited⟩ [] = none ∧
    (⟨some 1, some 2, AggregationLimit.free⟩ :
      SubscriptionDetailsForAggregation).real_limit = some 3 :=
  ⟨(c2_subscription_exceeded_first_amended ⟨some 1, some 2, .unlimited⟩ []
      (by simp)).1 (Or.inl rfl),
   (c2_subscription_exceeded_first_amended ⟨some 1, some 2, .free⟩ []
      (by simp)).2.1 rfl⟩

theorem pyMaxFold_ge_init (f : MonthlyServiceAverage → ℚ)
    (xs : List MonthlyServiceAverage) :
    ∀ a, f a ≤ f (xs.foldl (fun b y => if f b < f y then y else b) a) := by
  induction xs with
  | nil => intro a; simp
  | cons x t ih =>
    intro a
    simp only [List.foldl_cons]
    by_cases h : f a < f x
    · simp only [h, if_true]
      exact le_of_lt (lt_of_lt_of_le h (ih x))
    · simp only [h, if_false]
      exact ih a

theorem pyMaxFold_ge_mem (f : MonthlyServiceAverage → ℚ)
    (xs : List MonthlyServiceAverage) :
    ∀ a y, y ∈ xs → f y ≤ f (xs.foldl (fun b y => if f b < f y then y else b) a) := by
  induction xs with
  | nil => intro a y hy; simp at hy
  | cons x t ih =>
    intro a y hy
    simp only [List.foldl_cons]
    rcases List.mem_cons.mp hy with rfl | hyt
    · by_cases h : f a < f y
      · simp only [h, if_true]
        exact pyMaxFold_ge_init f t y
      · simp only [h, if_false]
        exact le_trans (not_lt.mp h) (pyMaxFold_ge_init f t a)
    · exact ih _ y hyt

theorem pyMaxFold_no_change (f : MonthlyServiceAverage → ℚ)
    (xs : List MonthlyServiceAverage) :
    ∀ a, (∀ y ∈ xs, f y ≤ f a) →
      xs.foldl (fun b y => if f b < f y then y else b) a = a := by
  induction xs with
  | nil => intro a _; rfl
  | cons x t ih =>
    intro a h
    simp only [List.foldl_cons]
    rw [if_neg (not_lt.mpr (h x (List.mem_cons_self _ _)))]
    exact ih a (fun y hy => h y (List.mem_cons_of_mem _ hy))

theorem pyMaxBy_append_self (f : MonthlyServiceAverage → ℚ)
    (l : List MonthlyServiceAverage) :
    pyMaxBy f (l ++ l) = pyMaxBy f l := by
  cases l with
  | nil => rfl
  | cons x xs =>
    simp only [pyMaxBy, List.cons_append, List.foldl_append, List.foldl_cons]
    congr 1
    set M := xs.foldl (fun b y => if f b < f y then y else b) x with hM
    have hub : ∀ y ∈ x :: xs, f y ≤ f M := by
      intro y hy
      rcases List.mem_cons.mp hy with rfl | hyt
      · exact pyMaxFold_ge_init f xs y
      · exact pyMaxFold_ge_mem f xs x y hyt
    rw [if_neg (not_lt.mpr (hub x (List.mem_cons_self _ _)))]
    exact pyMaxFold_no_change f xs M (fun y hy => hub y (List.mem_cons_of_mem _ hy))

theorem getLast?_append_self (l : List MonthlyServiceAverage) :
    (l ++ l).getLast? = l.getLast? := by
  cases l with
  | nil => rfl
  | cons x xs =>
    rw [List.getLast?_append]
    simp

set_option maxRecDepth 16000 in
/-- C8 (amended): `_calculate_averages` appends to the instance's
`_monthly_service_averages` list without clearing it, so a second
`get_aggregation` call on the same instance repeats the monthly averages
twice; all other report components (subscription details, daily series,
last, highest, first-exceeded) are unchanged, and the two reports are equal
exactly when no month qualified. -/
theorem c8_get_aggregation_amended (today : DateTime)
    (sub : SubscriptionDetailsForAggregation) (samples : List (Int × Int)) :
    (((MonthlyServiceAverages.init sub samples).get_aggregation
        today).2.get_aggregation today).1.subscription_details =
      ((MonthlyServiceAverages.init sub samples).get_aggregation
        today).1.subscription_details ∧
    (((MonthlyServiceAverages.init sub samples).get_aggregation
        today).2.get_aggregation today).1.daily_services =
      ((MonthlyServiceAverages.init sub samples).get_aggregation
        today).1.daily_services ∧
    (((MonthlyServiceAverages.init sub samples).get_aggregation
        today).2.get_aggregation today).1.monthly_service_averages =
      ((MonthlyServiceAverages.init sub samples).get_aggregation
          today).1.monthly_service_averages ++
        ((MonthlyServiceAverages.init sub samples).get_aggregation
          today).1.monthly_service_averages ∧
    (((MonthlyServiceAverages.init sub samples).get_aggregation
        today).2.get_aggregation today).1.last_service_report =
      ((MonthlyServiceAverages.init sub samples).get_aggregation
        today).1.last_service_report ∧
    (((MonthlyServiceAverages.init sub samples).get_aggregation
        today).2.get_aggregation today).1.highest_service_report =
      ((MonthlyServiceAverages.init sub samples).get_aggregation
        today).1.highest_service_report ∧
    (((MonthlyServiceAverages.init sub samples).get_aggregation
        today).2.get_aggregation today).1.subscription_exceeded_first =
      ((MonthlyServiceAverages.init sub samples).get_aggregation
        today).1.subscription_exceeded_first ∧
    ((((MonthlyServiceAverages.init sub samples).get_aggregation
        today).2.get_aggregation today).1 =
      ((MonthlyServiceAverages.init sub samples).get_aggregation today).1 ↔
      ((MonthlyServiceAverages.init sub samples).get_aggregation
        today).1.monthly_service_averages = []) := by
  have hfst : ∀ s : MonthlyServiceAverages,
      (MonthlyServiceAverages.get_aggregation today s).1 =
        ⟨s.subscription_details.for_report,
         s.daily_services.map MonthlyServiceAverage.for_report,
         (s.monthly_service_averages ++
           _calculate_averages today s.subscription_details s.daily_services).map
             MonthlyServiceAverage.for_report,
         _get_last_service_report (s.monthly_service_averages ++
           _calculate_averages today s.subscription_details s.daily_services),
         _get_highest_service_report (s.monthly_service_averages ++
           _calculate_averages today s.subscription_details s.daily_services),
         _get_subscription_exceeded_first s.subscription_details
           (s.monthly_service_averages ++
             _calculate_averages today s.subscription_details s.daily_services)⟩ :=
    fun s => rfl
  have hsnd : ∀ s : MonthlyServiceAverages,
      (MonthlyServiceAverages.get_aggregation today s).2 =
        ⟨s.subscription_details, s.daily_services,
         s.monthly_service_averages ++
           _calculate_averages today s.subscription_details s.daily_services⟩ :=
    fun s => rfl
  simp only [hfst, hsnd, MonthlyServiceAverages.init, List.nil_append]
  set A := _calculate_averages today sub (_calculate_daily_services samples) with hA
  have hlast : _get_last_service_report (A ++ A) = _get_last_service_report A := by
    rw [_get_last_service_report, _get_last_service_report, getLast?_append_self]
  have hhigh : _get_highest_service_report (A ++ A) = _get_highest_service_report A := by
    rw [_get_highest_service_report, _get_highest_service_report, pyMaxBy_append_self]
  have hexc : _get_subscription_exceeded_first sub (A ++ A) =
      _get_subscription_exceeded_first sub A := by
    rw [_get_subscription_exceeded_first, _get_subscription_exceeded_first]
    cases sub.real_limit with
    | none => rfl
    | some l => simp [List.find?_append, Option.or_self]
  refine ⟨trivial, trivial, List.map_append _ _ _, hlast, hhigh, hexc, ?_⟩
  constructor
  · intro h
    have hm := congrArg RawMonthlyServiceAggregation.monthly_service_averages h
    simp only at hm
    have hlen := congrArg List.length hm
    simp only [List.length_map, List.length_append] at hlen
    have hAnil : A = [] := List.length_eq_zero.mp (by omega)
    rw [hAnil]
    simp
  · intro h
    have hAnil : A = [] := List.map_eq_nil_iff.mp h
    rw [hAnil]
    simp


set_option maxRecDepth 40000 in
/-- Counterexample for C8 as stated: on a concrete instance with one
qualifying month, the second `get_aggregation` report differs from the
first (its monthly list is doubled). -/
theorem c8_counterexample_second_call_differs :
    ((MonthlyServiceAverages.get_aggregation todayW
        (MonthlyServiceAverages.get_aggregation todayW stateW).2).1) ≠
      (MonthlyServiceAverages.get_aggregation todayW stateW).1 := by
  intro h
  have hm := congrArg (fun r => r.monthly_service_averages.length) h
  simp only at hm
  have h2 : (MonthlyServiceAverages.get_aggregation todayW
      (MonthlyServiceAverages.get_aggregation todayW stateW).2).1.monthly_service_averages.length
      = 2 := by decide
  have h1 : (MonthlyServiceAverages.get_aggregation todayW
      stateW).1.monthly_service_averages.length = 1 := by decide
  omega

theorem Date.le_total_lemma (a b : Date) : Date.Le a b ∨ Date.Le b a := by
  obtain ⟨ay, am, ad⟩ := a
  obtain ⟨cy, cm, cd⟩ := b
  simp only [Date.Le]
  omega

theorem Date.le_trans_lemma {a b c : Date} (h1 : Date.Le a b) (h2 : Date.Le b c) :
    Date.Le a c := by
  obtain ⟨ay, am, ad⟩ := a
  obtain ⟨cy, cm, cd⟩ := b
  obtain ⟨ey, em, ed⟩ := c
  simp only [Date.Le] at *
  omega

theorem Date.lt_of_le_of_ne_lemma {a b : Date} (h1 : Date.Le a b) (h2 : a ≠ b) :
    Date.Lt a b := by
  obtain ⟨ay, am, ad⟩ := a
  obtain ⟨cy, cm, cd⟩ := b
  simp only [Date.Le, Date.Lt, ne_eq, Date.mk.injEq, not_and] at *
  rcases h1 with h | ⟨rfl, h | ⟨rfl, h⟩⟩
  · exact Or.inl h
  · exact Or.inr ⟨rfl, Or.inl h⟩
  · refine Or.inr ⟨rfl, Or.inr ⟨rfl, ?_⟩⟩
    rcases lt_or_eq_of_le h with h' | rfl
    · exact h'
    · exact absurd rfl (h2 rfl rfl)

instance : IsTotal (Date × Int) dailyOrder :=
  ⟨fun a b => Date.le_total_lemma a.1 b.1⟩

instance : IsTrans (Date × Int) dailyOrder :=
  ⟨fun _ _ _ h1 h2 => Date.le_trans_lemma h1 h2⟩

theorem lookupDay_cons_self {k : Date} {v : Int} {rest : List (Date × Int)} :
    lookupDay ((k, v) :: rest) k = some v := by
  simp [lookupDay, List.find?_cons_of_pos]

theorem lookupDay_cons_ne {k : Date} {v : Int} {rest : List (Date × Int)} {d : Date}
    (h : ¬ k = d) : lookupDay ((k, v) :: rest) d = lookupDay rest d := by
  simp [lookupDay, List.find?_cons_of_neg, h]

theorem lookupDay_updateDaily (acc : List (Date × Int)) (k : Date) (n : Int) (d : Date) :
    lookupDay (updateDaily acc k n) d =
      if d = k then some ((lookupDay acc d).getD 0 + n) else lookupDay acc d := by
  induction acc with
  | nil =>
    by_cases h : d = k
    · simp [updateDaily, lookupDay, h]
    · simp [updateDaily, lookupDay, h, Ne.symm h]
  | cons q rest ih =>
    obtain ⟨qk, qv⟩ := q
    by_cases hq : qk = k
    · subst hq
      rw [updateDaily, if_pos rfl]
      by_cases hd : d = qk
      · subst hd
        rw [lookupDay_cons_self, if_pos rfl, lookupDay_cons_self]
        simp
      · rw [lookupDay_cons_ne (fun h => hd h.symm), if_neg hd,
          lookupDay_cons_ne (fun h => hd h.symm)]
    · rw [updateDaily, if_neg hq]
      by_cases hd : qk = d
      · subst hd
        rw [lookupDay_cons_self, if_neg (fun h => hq h), lookupDay_cons_self]
      · simp only [lookupDay_cons_ne hd]
        exact ih

theorem updateDaily_keys_subset (acc : List (Date × Int)) (k : Date) (n : Int) :
    ∀ d, d ∈ (updateDaily acc k n).map Prod.fst → d = k ∨ d ∈ acc.map Prod.fst := by
  induction acc with
  | nil => intro d hd; simp [updateDaily] at hd; simp [hd]
  | cons q rest ih =>
    intro d hd
    obtain ⟨qk, qv⟩ := q
    by_cases hq : qk = k
    · subst hq
      rw [updateDaily, if_pos rfl] at hd
      simp only [List.map_cons, List.mem_cons] at hd ⊢
      tauto
    · rw [updateDaily, if_neg hq] at hd
      simp only [List.map_cons, List.mem_cons] at hd ⊢
      rcases hd with rfl | hd
      · tauto
      · rcases ih d hd with h | h <;> tauto

theorem updateDaily_nodup_keys (acc : List (Date × Int)) (k : Date) (n : Int)
    (h : (acc.map Prod.fst).Nodup) : ((updateDaily acc k n).map Prod.fst).Nodup := by
  induction acc with
  | nil => simp [updateDaily]
  | cons q rest ih =>
    obtain ⟨qk, qv⟩ := q
    simp only [List.map_cons, List.nodup_cons] at h
    by_cases hq : qk = k
    · subst hq
      rw [updateDaily, if_pos rfl]
      simp only [List.map_cons, List.nodup_cons]
      exact h
    · rw [updateDaily, if_neg hq]
      simp only [List.map_cons, List.nodup_cons]
      refine ⟨?_, ih h.2⟩
      intro hmem
      rcases updateDaily_keys_subset rest k n qk hmem with rfl | hmem2
      · exact hq rfl
      · exact h.1 hmem2

theorem daySum_cons (p : Int × Int) (t : List (Int × Int)) (d : Date) :
    daySum (p :: t) d = (if dailyKey p.1 = d then p.2 else 0) + daySum t d := by
  by_cases h : dailyKey p.1 = d <;> simp [daySum, h]

theorem daySum_eq_zero (t : List (Int × Int)) (d : Date)
    (h : ¬ ∃ p ∈ t, dailyKey p.1 = d) : daySum t d = 0 := by
  have hf : t.filter (fun p => decide (dailyKey p.1 = d)) = [] := by
    rw [List.filter_eq_nil_iff]
    intro a ha
    simp only [decide_eq_true_eq]
    exact fun hd => h ⟨a, ha, hd⟩
  simp [daySum, hf]

theorem dailyTally_go (ss : List (Int × Int)) (d : Date) :
    ∀ acc, lookupDay (ss.foldl (fun acc p => updateDaily acc (dailyKey p.1) p.2) acc) d =
      if ∃ p ∈ ss, dailyKey p.1 = d then
        some ((lookupDay acc d).getD 0 + daySum ss d)
      else lookupDay acc d := by
  induction ss with
  | nil => intro acc; simp
  | cons p t ih =>
    intro acc
    simp only [List.foldl_cons]
    rw [ih]
    by_cases hd : dailyKey p.1 = d
    · have hupd : lookupDay (updateDaily acc (dailyKey p.1) p.2) d =
          some ((lookupDay acc d).getD 0 + p.2) := by
        rw [lookupDay_updateDaily, if_pos hd.symm]
      by_cases hmem : ∃ q ∈ t, dailyKey q.1 = d
      · rw [if_pos hmem, if_pos ⟨p, List.mem_cons_self _ _, hd⟩, hupd]
        rw [daySum_cons, if_pos hd]
        simp only [Option.getD_some]
        congr 1
        ring
      · rw [if_neg hmem, if_pos ⟨p, List.mem_cons_self _ _, hd⟩, hupd]
        rw [daySum_cons, if_pos hd, daySum_eq_zero t d hmem]
        simp
    · have hupd : lookupDay (updateDaily acc (dailyKey p.1) p.2) d = lookupDay acc d := by
        rw [lookupDay_updateDaily, if_neg (fun h => hd h.symm)]
      rw [hupd, daySum_cons, if_neg hd]
      have hiff : (∃ q ∈ p :: t, dailyKey q.1 = d) ↔ (∃ q ∈ t, dailyKey q.1 = d) := by
        constructor
        · rintro ⟨q, hq, hqd⟩
          rcases List.mem_cons.mp hq with rfl | hqt
          · exact absurd hqd hd
          · exact ⟨q, hqt, hqd⟩
        · rintro ⟨q, hq, hqd⟩
          exact ⟨q, List.mem_cons_of_mem _ hq, hqd⟩
      by_cases hmem : ∃ q ∈ t, dailyKey q.1 = d
      · rw [if_pos hmem, if_pos (hiff.mpr hmem)]
        simp
      · rw [if_neg hmem, if_neg (fun h => hmem (hiff.mp h))]

theorem dailyTally_lookup (ss : List (Int × Int)) (d : Date) :
    lookupDay (dailyTally ss) d =
      if ∃ p ∈ ss, dailyKey p.1 = d then some (daySum ss d) else none := by
  have := dailyTally_go ss d []
  rw [dailyTally]
  rw [this]
  by_cases h : ∃ p ∈ ss, dailyKey p.1 = d <;> simp [h, lookupDay]

theorem dailyTally_nodup_keys (ss : List (Int × Int)) :
    ((dailyTally ss).map Prod.fst).Nodup := by
  rw [dailyTally]
  suffices h : ∀ acc : List (Date × Int), (acc.map Prod.fst).Nodup →
      ((ss.foldl (fun acc p => updateDaily acc (dailyKey p.1) p.2) acc).map Prod.fst).Nodup by
    exact h [] (by simp)
  induction ss with
  | nil => intro acc hacc; simpa using hacc
  | cons p t ih =>
    intro acc hacc
    simp only [List.foldl_cons]
    exact ih _ (updateDaily_nodup_keys acc _ _ hacc)

theorem mem_iff_lookupDay (acc : List (Date × Int))
    (h : (acc.map Prod.fst).Nodup) (d : Date) (c : Int) :
    (d, c) ∈ acc ↔ lookupDay acc d = some c := by
  induction acc with
  | nil => simp [lookupDay]
  | cons q rest ih =>
    obtain ⟨qk, qv⟩ := q
    simp only [List.map_cons, List.nodup_cons] at h
    by_cases hd : qk = d
    · subst hd
      rw [lookupDay_cons_self]
      constructor
      · intro hmem
        rcases List.mem_cons.mp hmem with heq | hmem
        · injection heq with h1 h2
          rw [h2]
        · exact absurd (List.mem_map_of_mem Prod.fst hmem) h.1
      · intro hsome
        obtain rfl : qv = c := Option.some.inj hsome
        exact List.mem_cons_self _ _
    · rw [lookupDay_cons_ne hd, ← ih h.2]
      constructor
      · intro hmem
        rcases List.mem_cons.mp hmem with heq | hmem
        · exact absurd (congrArg Prod.fst heq).symm hd
        · exact hmem
      · exact fun hmem => List.mem_cons_of_mem _ hmem

theorem mem_keys_iff_sampled (ss : List (Int × Int)) (d : Date) :
    d ∈ (dailyTally ss).map Prod.fst ↔ d ∈ sampleDays ss := by
  constructor
  · intro h
    obtain ⟨p, hp, rfl⟩ := List.mem_map.mp h
    have hl := (mem_iff_lookupDay _ (dailyTally_nodup_keys ss) p.1 p.2).mp
      (by simpa using hp)
    rw [dailyTally_lookup] at hl
    by_cases hex : ∃ q ∈ ss, dailyKey q.1 = p.1
    · obtain ⟨q, hq, hqd⟩ := hex
      exact List.mem_map.mpr ⟨q, hq, hqd⟩
    · rw [if_neg hex] at hl
      exact absurd hl (by simp)
  · intro h
    rw [sampleDays] at h
    obtain ⟨q, hq, rfl⟩ := List.mem_map.mp h
    have hl : lookupDay (dailyTally ss) (dailyKey q.1) = some (daySum ss (dailyKey q.1)) := by
      rw [dailyTally_lookup, if_pos ⟨q, hq, rfl⟩]
    have hmem := (mem_iff_lookupDay _ (dailyTally_nodup_keys ss) _ _).mpr hl
    exact List.mem_map.mpr ⟨_, hmem, rfl⟩

/-- C6: daily bucketing groups samples by calendar day, summing counts
within each day (each retained entry is its day's total), returns a list
strictly ascending by day whose entries are midnights of sampled days, with
length `min (number of distinct sampled days) 400`; every sampled day is
either retained or (when the 400-cap is hit) strictly older than every
retained day. -/
theorem c6_daily_bucketing (ss : List (Int × Int)) :
    (_calculate_daily_services ss).Pairwise
      (fun a b => Date.Lt a.sample_date.date b.sample_date.date) ∧
    (∀ a ∈ _calculate_daily_services ss,
      a.sample_date = Date.midnight a.sample_date.date ∧
      a.num_services = ((daySum ss a.sample_date.date : Int) : ℚ) ∧
      a.sample_date.date ∈ sampleDays ss) ∧
    (_calculate_daily_services ss).length = min (sampleDays ss).toFinset.card 400 ∧
    (∀ d ∈ sampleDays ss,
      (∃ a ∈ _calculate_daily_services ss, a.sample_date.date = d) ∨
      ((_calculate_daily_services ss).length = 400 ∧
        ∀ a ∈ _calculate_daily_services ss, Date.Lt d a.sample_date.date)) := by
  have hcalc : _calculate_daily_services ss =
      (((dailyTally ss).insertionSort dailyOrder).drop
        (((dailyTally ss).insertionSort dailyOrder).length - 400)).map
          (fun p => ⟨Date.midnight p.1, (p.2 : ℚ)⟩) := rfl
  set tally := dailyTally ss with htally
  set sorted := tally.insertionSort dailyOrder with hsortdef
  set k := sorted.length - 400 with hk
  have hperm : sorted.Perm tally := List.perm_insertionSort _ _
  have hsortLe : sorted.Pairwise dailyOrder := List.sorted_insertionSort dailyOrder tally
  have hkeysnodup : (sorted.map Prod.fst).Nodup :=
    (hperm.map Prod.fst).nodup_iff.mpr (dailyTally_nodup_keys ss)
  have hpairwise_ne : sorted.Pairwise (fun p q => p.1 ≠ q.1) :=
    List.pairwise_map.mp hkeysnodup
  have hsortLt : sorted.Pairwise (fun p q => Date.Lt p.1 q.1) :=
    (hsortLe.and hpairwise_ne).imp (fun h => Date.lt_of_le_of_ne_lemma h.1 h.2)
  have hdropLt : (sorted.drop k).Pairwise (fun p q => Date.Lt p.1 q.1) :=
    hsortLt.sublist (List.drop_sublist k sorted)
  have hmem_char : ∀ p ∈ sorted.drop k,
      p.2 = daySum ss p.1 ∧ p.1 ∈ sampleDays ss := by
    intro p hp
    have hmem : p ∈ tally := hperm.mem_iff.mp ((List.drop_sublist k sorted).subset hp)
    have hl := (mem_iff_lookupDay tally (dailyTally_nodup_keys ss) p.1 p.2).mp
      (by simpa using hmem)
    rw [dailyTally_lookup] at hl
    by_cases hex : ∃ q ∈ ss, dailyKey q.1 = p.1
    · rw [if_pos hex] at hl
      obtain ⟨q, hq, hqd⟩ := hex
      exact ⟨(Option.some.inj hl).symm, List.mem_map.mpr ⟨q, hq, hqd⟩⟩
    · rw [if_neg hex] at hl
      exact absurd hl (by simp)
  have hcard : (sampleDays ss).toFinset.card = tally.length := by
    have h1 : (tally.map Prod.fst).toFinset = (sampleDays ss).toFinset := by
      ext x
      simp only [List.mem_toFinset]
      exact mem_keys_iff_sampled ss x
    calc (sampleDays ss).toFinset.card
        = (tally.map Prod.fst).toFinset.card := by rw [h1]
      _ = (tally.map Prod.fst).length :=
          List.toFinset_card_of_nodup (dailyTally_nodup_keys ss)
      _ = tally.length := List.length_map _ _
  have hlen : sorted.length = tally.length := hperm.length_eq
  refine ⟨?_, ?_, ?_, ?_⟩
  · rw [hcalc]
    exact List.pairwise_map.mpr hdropLt
  · intro a ha
    rw [hcalc] at ha
    obtain ⟨p, hp, rfl⟩ := List.mem_map.mp ha
    obtain ⟨hsum, hmem⟩ := hmem_char p hp
    exact ⟨rfl, by simp [hsum, Date.midnight], hmem⟩
  · rw [hcalc, List.length_map, List.length_drop, hcard, ← hlen]
    omega
  · intro d hd
    have hl : lookupDay tally d = some (daySum ss d) := by
      rw [htally, dailyTally_lookup]
      rw [sampleDays] at hd
      obtain ⟨q, hq, rfl⟩ := List.mem_map.mp hd
      rw [if_pos ⟨q, hq, rfl⟩]
    have hmem : (d, daySum ss d) ∈ sorted :=
      hperm.mem_iff.mpr ((mem_iff_lookupDay tally (dailyTally_nodup_keys ss) _ _).mpr hl)
    rw [← List.take_append_drop k sorted] at hmem
    rcases List.mem_append.mp hmem with htake | hdrop
    · right
      have hk0 : k ≠ 0 := by
        intro h0
        rw [h0, List.take_zero] at htake
        simp at htake
      constructor
      · rw [hcalc, List.length_map, List.length_drop]
        omega
      · intro a ha
        rw [hcalc] at ha
        obtain ⟨p, hp, rfl⟩ := List.mem_map.mp ha
        have hpw := hsortLt
        rw [← List.take_append_drop k sorted] at hpw
        exact (List.pairwise_append.mp hpw).2.2 _ htake p hp
    · left
      refine ⟨⟨Date.midnight d, ((daySum ss d : Int) : ℚ)⟩, ?_, rfl⟩
      rw [hcalc]
      exact List.mem_map.mpr ⟨(d, daySum ss d), hdrop, rfl⟩

set_option maxRecDepth 8000 in
/-- Witness for C6: two distinct days out of three samples; the second day
sums its two samples (5 + 3 = 8). -/
theorem c6_daily_bucketing_witness :
    (_calculate_daily_services [(86400, 5), (90000, 3), (0, 10)]).length =
      min (sampleDays [(86400, 5), (90000, 3), (0, 10)]).toFinset.card 400 ∧
    (⟨Date.midnight ⟨1970, 1, 2⟩, ((8 : Int) : ℚ)⟩ : MonthlyServiceAverage).num_services =
      ((daySum [(86400, 5), (90000, 3), (0, 10)]
        (⟨Date.midnight ⟨1970, 1, 2⟩, ((8 : Int) : ℚ)⟩ :
          MonthlyServiceAverage).sample_date.date : Int) : ℚ) :=
  ⟨(c6_daily_bucketing _).2.2.1,
   ((c6_daily_bucketing [(86400, 5), (90000, 3), (0, 10)]).2.1
      ⟨Date.midnight ⟨1970, 1, 2⟩, ((8 : Int) : ℚ)⟩ (by
        have h0 : _calculate_daily_services [(86400, 5), (90000, 3), (0, 10)] =
            [⟨Date.midnight ⟨1970, 1, 1⟩, ((10 : Int) : ℚ)⟩,
             ⟨Date.midnight ⟨1970, 1, 2⟩, ((8 : Int) : ℚ)⟩] := rfl
        rw [h0]
        simp)).2.1⟩

theorem lookupMonth_cons_self {k : Date} {v : MonthCounter} {rest : List (Date × MonthCounter)} :
    lookupMonth ((k, v) :: rest) k = some v := by
  simp [lookupMonth, List.find?_cons_of_pos]

theorem lookupMonth_cons_ne {k : Date} {v : MonthCounter} {rest : List (Date × MonthCounter)}
    {d : Date} (h : ¬ k = d) : lookupMonth ((k, v) :: rest) d = lookupMonth rest d := by
  simp [lookupMonth, List.find?_cons_of_neg, h]

theorem lookupMonth_updateMonthly (acc : List (Date × MonthCounter)) (k : Date)
    (svc : Int) (d : Date) :
    lookupMonth (updateMonthly acc k svc) d =
      if d = k then
        some (match lookupMonth acc d with
          | none => ⟨1, svc⟩
          | some c => ⟨c.num_daily_services + 1, c.num_services + svc⟩)
      else lookupMonth acc d := by
  induction acc with
  | nil =>
    by_cases h : d = k
    · subst h
      simp [updateMonthly, lookupMonth]
    · simp [updateMonthly, lookupMonth, h, Ne.symm h]
  | cons q rest ih =>
    obtain ⟨qk, qv⟩ := q
    by_cases hq : qk = k
    · subst hq
      rw [updateMonthly, if_pos rfl]
      by_cases hd : d = qk
      · subst hd
        rw [lookupMonth_cons_self, if_pos rfl, lookupMonth_cons_self]
      · rw [lookupMonth_cons_ne (fun h => hd h.symm), if_neg hd,
          lookupMonth_cons_ne (fun h => hd h.symm)]
    · rw [updateMonthly, if_neg hq]
      by_cases hd : qk = d
      · subst hd
        rw [lookupMonth_cons_self, if_neg (fun h => hq h), lookupMonth_cons_self]
      · simp only [lookupMonth_cons_ne hd]
        exact ih

theorem midnight_le_iff {a b : Date} :
    DateTime.Le (Date.midnight a) (Date.midnight b) ↔ Date.Le a b := by
  obtain ⟨ay, am, ad⟩ := a
  obtain ⟨cy, cm, cd⟩ := b
  simp only [DateTime.Le, Date.midnight, Date.Le, Date.Lt, Date.mk.injEq]
  omega

theorem midnight_lt_iff {a b : Date} :
    DateTime.Lt (Date.midnight a) (Date.midnight b) ↔ Date.Lt a b := by
  obtain ⟨ay, am, ad⟩ := a
  obtain ⟨cy, cm, cd⟩ := b
  simp only [DateTime.Lt, Date.midnight, Date.Le, Date.Lt, Date.mk.injEq]
  omega

theorem Date.le_of_lt_lemma {a b : Date} (h : Date.Lt a b) : Date.Le a b := by
  obtain ⟨ay, am, ad⟩ := a
  obtain ⟨cy, cm, cd⟩ := b
  simp only [Date.Le, Date.Lt] at *
  omega

theorem windowIter_succ (k : Nat) (w : Date) :
    windowIter (k + 1) w = (windowIter k w).addMonth := rfl

theorem windowIter_mono (w : Date) {k k' : Nat} (h : k ≤ k') :
    Date.Le (windowIter k w) (windowIter k' w) := by
  induction k' with
  | zero =>
    obtain rfl : k = 0 := Nat.le_zero.mp h
    obtain ⟨ay, am, ad⟩ := w
    simp [windowIter, Date.Le]
  | succ n ih =>
    rcases Nat.lt_or_ge k (n + 1) with h' | h'
    · exact Date.le_trans_lemma (ih (Nat.lt_succ_iff.mp h'))
        (Date.le_of_lt_lemma (Date.lt_addMonth _))
    · obtain rfl : k = n + 1 := Nat.le_antisymm h h'
      obtain ⟨ay, am, ad⟩ := windowIter (n + 1) w
      simp [Date.Le]

theorem windowIter_strictMono (w : Date) {k k' : Nat} (h : k < k') :
    Date.Lt (windowIter k w) (windowIter k' w) :=
  Date.lt_trans_le (Date.lt_addMonth _)
    (by rw [← windowIter_succ]; exact windowIter_mono w h)

theorem windowIter_ne (w : Date) {k k' : Nat} (h : k ≠ k') :
    windowIter k w ≠ windowIter k' w := by
  rcases Nat.lt_or_ge k k' with h' | h'
  · intro heq
    have := windowIter_strictMono w h'
    rw [heq] at this
    obtain ⟨ay, am, ad⟩ := windowIter k' w
    simp only [Date.Lt] at this
    omega
  · rcases Nat.lt_or_ge k' k with h'' | h''
    · intro heq
      have := windowIter_strictMono w h''
      rw [heq] at this
      obtain ⟨ay, am, ad⟩ := windowIter k' w
      simp only [Date.Lt] at this
      omega
    · exact absurd (Nat.le_antisymm h'' h') h

theorem dtle_midnight_mono {t : DateTime} {w w' : Date}
    (h1 : DateTime.Le t (Date.midnight w)) (h2 : Date.Le w w') :
    DateTime.Le t (Date.midnight w') := by
  obtain ⟨⟨ty, tm, td⟩, ts⟩ := t
  obtain ⟨ay, am, ad⟩ := w
  obtain ⟨cy, cm, cd⟩ := w'
  simp only [DateTime.Le, Date.midnight, Date.Le, Date.Lt, Date.mk.injEq] at *
  omega

theorem mergeOpt_none_right (o : Option MonthCounter) : mergeOpt o none = o := by
  cases o <;> rfl

theorem mergeOpt_bump (o g : Option MonthCounter) (v : Int) :
    mergeOpt (some (match o with
      | none => (⟨1, v⟩ : MonthCounter)
      | some c => ⟨c.num_daily_services + 1, c.num_services + v⟩)) g =
      mergeOpt o (mergeOpt (some ⟨1, v⟩) g) := by
  cases o <;> cases g <;> (simp [mergeOpt, MonthCounter.mk.injEq]; try omega)

theorem groupOf_cons (d : MonthlyServiceAverage) (t : List MonthlyServiceAverage) (w : Date) :
    groupOf (d :: t) w =
      if inWindow w d.sample_date.date then
        mergeOpt (some ⟨1, pyIntOfRat d.num_services⟩) (groupOf t w)
      else groupOf t w := by
  by_cases h : inWindow w d.sample_date.date
  · rw [if_pos h]
    unfold groupOf
    rw [List.filter_cons_of_pos (by simpa using h)]
    by_cases hemp : (t.filter (fun x => decide (inWindow w x.sample_date.date))).isEmpty
    · rw [if_pos hemp]
      obtain hnil := List.isEmpty_iff.mp hemp
      simp [hnil, mergeOpt]
    · rw [if_neg hemp]
      simp only [List.isEmpty_cons, if_false, Bool.false_eq_true]
      simp [mergeOpt, MonthCounter.mk.injEq]
      omega
  · rw [if_neg h]
    unfold groupOf
    rw [List.filter_cons_of_neg (by simpa using h)]

theorem Date.not_lt_of_le_lemma {a b : Date} (h : Date.Le a b) : ¬ Date.Lt b a := by
  obtain ⟨ay, am, ad⟩ := a
  obtain ⟨cy, cm, cd⟩ := b
  simp only [Date.Le, Date.Lt] at *
  omega

theorem Date.not_le_of_lt_lemma {a b : Date} (h : Date.Lt a b) : ¬ Date.Le b a := by
  obtain ⟨ay, am, ad⟩ := a
  obtain ⟨cy, cm, cd⟩ := b
  simp only [Date.Le, Date.Lt] at *
  omega

theorem groupOf_eq_none {ds : List MonthlyServiceAverage} {w : Date}
    (h : ∀ x ∈ ds, ¬ inWindow w x.sample_date.date) : groupOf ds w = none := by
  have hf : ds.filter (fun x => decide (inWindow w x.sample_date.date)) = [] := by
    rw [List.filter_eq_nil_iff]
    intro a ha
    simpa using h a ha
  simp [groupOf, hf]

theorem Date.le_lt_trans_lemma {a b c : Date} (h1 : Date.Le a b) (h2 : Date.Lt b c) :
    Date.Lt a c := by
  obtain ⟨ay, am, ad⟩ := a
  obtain ⟨cy, cm, cd⟩ := b
  obtain ⟨ey, em, ed⟩ := c
  simp only [Date.Le, Date.Lt] at *
  omega

theorem averagesLoop_groups (today : DateTime) (subEnd : Date) (ms0 : Date) :
    ∀ (ds : List MonthlyServiceAverage) (j : Nat) (acc : List (Date × MonthCounter)),
      ds.Pairwise (fun a b => DateTime.Lt a.sample_date b.sample_date) →
      (∀ x ∈ ds, x.sample_date = Date.midnight x.sample_date.date) →
      noSkipFrom (windowIter (j + 1) ms0) ds →
      (∀ x ∈ ds, ∀ k', k' < j → ¬ inWindow (windowIter k' ms0) x.sample_date.date) →
      (∀ k', j < k' → lookupMonth acc (windowIter k' ms0) = none) →
      ∀ k', ¬ DateTime.Le today (Date.midnight (windowIter (k' + 1) ms0)) →
        ¬ Date.Lt subEnd (windowIter (k' + 1) ms0) →
        lookupMonth
          (averagesLoop today subEnd (windowIter j ms0) (windowIter (j + 1) ms0) acc ds)
          (windowIter k' ms0) =
        mergeOpt (lookupMonth acc (windowIter k' ms0)) (groupOf ds (windowIter k' ms0)) := by
  intro ds
  induction ds with
  | nil =>
    intro j acc _ _ _ _ _ k' _ _
    rw [averagesLoop, groupOf_eq_none (by intro x hx; simp at hx), mergeOpt_none_right]
  | cons d rest ih =>
    intro j acc hsort hmid hns h3 h4 k' hbt hbe
    have hmidd : d.sample_date = Date.midnight d.sample_date.date :=
      hmid d (List.mem_cons_self _ _)
    have hmidr : ∀ x ∈ rest, x.sample_date = Date.midnight x.sample_date.date :=
      fun x hx => hmid x (List.mem_cons_of_mem _ hx)
    have hsortr := (List.pairwise_cons.mp hsort).2
    have hgtd : ∀ x ∈ rest, DateTime.Lt d.sample_date x.sample_date :=
      (List.pairwise_cons.mp hsort).1
    obtain ⟨hns1, hns2⟩ := hns
    rw [averagesLoop]
    by_cases hadv : DateTime.Le (Date.midnight (windowIter (j + 1) ms0)) d.sample_date
    · -- the window advances to j+1
      rw [if_pos hadv] at hns1 hns2
      have hadvD : Date.Le (windowIter (j + 1) ms0) d.sample_date.date :=
        midnight_le_iff.mp (by rwa [hmidd] at hadv)
      have hns1D : Date.Lt d.sample_date.date (windowIter (j + 2) ms0) :=
        midnight_lt_iff.mp (by rwa [hmidd] at hns1)
      simp only [hadv, if_true]
      by_cases hbrk : DateTime.Le today (Date.midnight ((windowIter (j + 1) ms0).addMonth)) ∨
          Date.Lt subEnd ((windowIter (j + 1) ms0).addMonth)
      · -- break at window j+1: every included window is before j, holding no day
        rw [if_pos hbrk]
        have hk'le : k' < j + 1 := by
          by_contra hge
          have hmono : Date.Le (windowIter (j + 2) ms0) (windowIter (k' + 1) ms0) :=
            windowIter_mono ms0 (by omega)
          rcases hbrk with hb | hb
          · exact hbt (dtle_midnight_mono hb hmono)
          · exact hbe (Date.lt_trans_le hb hmono)
        rw [groupOf_eq_none, mergeOpt_none_right]
        intro x hx
        rcases List.mem_cons.mp hx with rfl | hxr
        · -- d itself: d.date is at or past the start of window j+1
          rintro ⟨-, hlt⟩
          exact Date.not_lt_of_le_lemma
            (Date.le_trans_lemma (windowIter_mono ms0 (by omega : k' + 1 ≤ j + 1)) hadvD) hlt
        · rintro ⟨-, hlt⟩
          have hxd : Date.Lt d.sample_date.date x.sample_date.date := by
            have := hgtd x hxr
            rw [hmidd, hmidr x hxr] at this
            exact midnight_lt_iff.mp this
          have hxge : Date.Le (windowIter (k' + 1) ms0) x.sample_date.date :=
            Date.le_trans_lemma (windowIter_mono ms0 (by omega : k' + 1 ≤ j + 1))
              (Date.le_of_lt_lemma (Date.le_lt_trans_lemma hadvD hxd))
          exact Date.not_lt_of_le_lemma hxge hlt
      · rw [if_neg hbrk]
        simp only [true_and]
        rw [if_pos hns1]
        have hrec := ih (j + 1) (updateMonthly acc (windowIter (j + 1) ms0)
            (pyIntOfRat d.num_services)) hsortr hmidr hns2 ?_ ?_ k' hbt hbe
        · rw [← windowIter_succ (j + 1) ms0, hrec]
          by_cases hk : k' = j + 1
          · subst hk
            rw [lookupMonth_updateMonthly, if_pos rfl]
            rw [groupOf_cons, if_pos ⟨hadvD, hns1D⟩]
            exact mergeOpt_bump _ _ _
          · rw [lookupMonth_updateMonthly, if_neg (windowIter_ne ms0 hk)]
            rw [groupOf_cons, if_neg ?_]
            rcases Nat.lt_or_ge k' (j + 1) with hlt | hge
            · rintro ⟨-, hltw⟩
              exact Date.not_lt_of_le_lemma
                (Date.le_trans_lemma (windowIter_mono ms0 (by omega : k' + 1 ≤ j + 1)) hadvD)
                hltw
            · have hgt : j + 1 < k' := by omega
              rintro ⟨hlew, -⟩
              exact Date.not_le_of_lt_lemma
                (Date.lt_trans_le hns1D (windowIter_mono ms0 (by omega : j + 2 ≤ k'))) hlew
        · -- remaining days lie in no window before j+1
          intro x hx k'' hk''
          rcases Nat.lt_or_ge k'' j with hk''j | hk''j
          · exact h3 x (List.mem_cons_of_mem _ hx) k'' hk''j
          · obtain rfl : k'' = j := by omega
            rintro ⟨-, hltw⟩
            have hxd : Date.Lt d.sample_date.date x.sample_date.date := by
              have := hgtd x hx
              rw [hmidd, hmidr x hx] at this
              exact midnight_lt_iff.mp this
            exact Date.not_lt_of_le_lemma
              (Date.le_of_lt_lemma (Date.le_lt_trans_lemma hadvD hxd)) hltw
        · intro k'' hk''
          rw [lookupMonth_updateMonthly,
            if_neg (fun h => (windowIter_ne ms0 (by omega : (j+1 : Nat) ≠ k'')) h.symm)]
          exact h4 k'' (by omega)
    · -- no advance: the window stays at j
      rw [if_neg hadv] at hns1 hns2
      have hns1D : Date.Lt d.sample_date.date (windowIter (j + 1) ms0) :=
        midnight_lt_iff.mp (by rwa [hmidd] at hns1)
      simp only [hadv, if_false]
      by_cases hbrk : DateTime.Le today (Date.midnight (windowIter (j + 1) ms0)) ∨
          Date.Lt subEnd (windowIter (j + 1) ms0)
      · rw [if_pos hbrk]
        have hk'le : k' < j := by
          by_contra hge
          have hmono : Date.Le (windowIter (j + 1) ms0) (windowIter (k' + 1) ms0) :=
            windowIter_mono ms0 (by omega)
          rcases hbrk with hb | hb
          · exact hbt (dtle_midnight_mono hb hmono)
          · exact hbe (Date.lt_trans_le hb hmono)
        rw [groupOf_eq_none (fun x hx => h3 x hx k' hk'le), mergeOpt_none_right]
      · rw [if_neg hbrk]
        by_cases hd0 : DateTime.Le (Date.midnight (windowIter j ms0)) d.sample_date
        · have hd0D : Date.Le (windowIter j ms0) d.sample_date.date :=
            midnight_le_iff.mp (by rwa [hmidd] at hd0)
          have hinsert : DateTime.Le (Date.midnight (windowIter j ms0)) d.sample_date ∧
              DateTime.Lt d.sample_date (Date.midnight (windowIter (j + 1) ms0)) :=
            ⟨hd0, hns1⟩
          rw [if_pos hinsert]
          have hrec := ih j (updateMonthly acc (windowIter j ms0)
              (pyIntOfRat d.num_services)) hsortr hmidr hns2 ?_ ?_ k' hbt hbe
          · rw [hrec]
            by_cases hk : k' = j
            · subst hk
              rw [lookupMonth_updateMonthly, if_pos rfl]
              rw [groupOf_cons, if_pos ⟨hd0D, hns1D⟩]
              exact mergeOpt_bump _ _ _
            · rw [lookupMonth_updateMonthly, if_neg (windowIter_ne ms0 hk)]
              rw [groupOf_cons, if_neg ?_]
              rcases Nat.lt_or_ge k' j with hlt | hge
              · exact h3 d (List.mem_cons_self _ _) k' hlt
              · have hgt : j < k' := by omega
                rintro ⟨hlew, -⟩
                exact Date.not_le_of_lt_lemma
                  (Date.lt_trans_le hns1D (windowIter_mono ms0 (by omega : j + 1 ≤ k'))) hlew
          · intro x hx k'' hk''
            exact h3 x (List.mem_cons_of_mem _ hx) k'' hk''
          · intro k'' hk''
            rw [lookupMonth_updateMonthly,
              if_neg (fun h => (windowIter_ne ms0 (by omega : (j : Nat) ≠ k'')) h.symm)]
            exact h4 k'' hk''
        · have hnotins : ¬ (DateTime.Le (Date.midnight (windowIter j ms0)) d.sample_date ∧
              DateTime.Lt d.sample_date (Date.midnight (windowIter (j + 1) ms0))) :=
            fun h => hd0 h.1
          rw [if_neg hnotins]
          have hrec := ih j acc hsortr hmidr hns2
            (fun x hx k'' hk'' => h3 x (List.mem_cons_of_mem _ hx) k'' hk'') h4 k' hbt hbe
          rw [hrec]
          rw [groupOf_cons, if_neg ?_]
          have hd0D : ¬ Date.Le (windowIter j ms0) d.sample_date.date := by
            intro hle
            exact hd0 (by rw [hmidd]; exact midnight_le_iff.mpr hle)
          rcases Nat.lt_or_ge k' j with hlt | hge
          · exact h3 d (List.mem_cons_self _ _) k' hlt
          · rcases Nat.eq_or_lt_of_le hge with rfl | hgt
            · rintro ⟨hlew, -⟩
              exact hd0D hlew
            · rintro ⟨hlew, -⟩
              exact Date.not_le_of_lt_lemma
                (Date.lt_trans_le hns1D (windowIter_mono ms0 (by omega : j + 1 ≤ k'))) hlew

theorem mergeOpt_none_left (o : Option MonthCounter) : mergeOpt none o = o := by
  cases o <;> rfl

set_option maxRecDepth 40000 in
/-- Counterexample for C1 as stated: with daily buckets 2024-01-05 and
2024-03-05 (a two-month gap), the bucket 2024-03-05 lies inside the included
chain window [2024-03-01, 2024-04-01), yet no monthly average is assigned to
that window: the single forward pass advances at most one month per bucket
and drops the day. -/
theorem c1_counterexample_skipped_month :
    (⟨Date.midnight ⟨2024, 3, 5⟩, ((20 : Int) : ℚ)⟩ : MonthlyServiceAverage) ∈ dailyW2 ∧
    windowIter 2 (datetimeFromTimestamp 1704067200).date = ⟨2024, 3, 1⟩ ∧
    inWindow ⟨2024, 3, 1⟩ ⟨2024, 3, 5⟩ ∧
    ¬ DateTime.Le todayW (Date.midnight (Date.addMonth ⟨2024, 3, 1⟩)) ∧
    ¬ Date.Lt (datetimeFromTimestamp 1735689600).date (Date.addMonth ⟨2024, 3, 1⟩) ∧
    ∀ a ∈ _calculate_averages todayW aggSubW dailyW2,
      a.sample_date.date ≠ ⟨2024, 3, 1⟩ := by
  refine ⟨?_, by decide, by decide, by decide, by decide, ?_⟩
  · have h0 : dailyW2 = [⟨Date.midnight ⟨2024, 1, 5⟩, ((10 : Int) : ℚ)⟩,
        ⟨Date.midnight ⟨2024, 3, 5⟩, ((20 : Int) : ℚ)⟩] := rfl
    rw [h0]
    simp
  · intro a ha
    have h1 : _calculate_averages todayW aggSubW dailyW2 =
        [⟨Date.midnight ⟨2024, 1, 1⟩, ((10 : Int) : ℚ) / ((1 : Int) : ℚ)⟩] := rfl
    rw [h1] at ha
    rw [List.mem_singleton] at ha
    rw [ha]
    decide

/-- C1 (amended): with both subscription bounds present, ascending midnight
daily buckets, and the no-skip precondition (each bucket lies before the end
of the window following the one current when it is scanned — in particular
when consecutive buckets are at most one window apart), every daily bucket
inside an included month window is assigned to exactly its containing
window, whose average is the sum of its buckets' truncated counts divided by
their number. -/
theorem c1_daily_buckets_assigned_amended (today : DateTime)
    (sub : SubscriptionDetailsForAggregation) (ds : List MonthlyServiceAverage)
    (s e : Int) (hs : sub.start = some s) (he : sub.«end» = some e)
    (hsort : ds.Pairwise (fun a b => DateTime.Lt a.sample_date b.sample_date))
    (hmid : ∀ x ∈ ds, x.sample_date = Date.midnight x.sample_date.date)
    (hns : noSkipFrom (windowIter 1 (datetimeFromTimestamp s).date) ds)
    (k : Nat) (d : MonthlyServiceAverage) (hd : d ∈ ds)
    (hin : inWindow (windowIter k (datetimeFromTimestamp s).date) d.sample_date.date)
    (hbt : ¬ DateTime.Le today
      (Date.midnight (windowIter (k + 1) (datetimeFromTimestamp s).date)))
    (hbe : ¬ Date.Lt (datetimeFromTimestamp e).date
      (windowIter (k + 1) (datetimeFromTimestamp s).date)) :
    ∃ a ∈ _calculate_averages today sub ds,
      a.sample_date = Date.midnight (windowIter k (datetimeFromTimestamp s).date) ∧
      a.num_services =
        ((((ds.filter (fun x => decide (inWindow
            (windowIter k (datetimeFromTimestamp s).date) x.sample_date.date))).map
              (fun x => pyIntOfRat x.num_services)).sum : Int) : ℚ) /
        (((ds.filter (fun x => decide (inWindow
            (windowIter k (datetimeFromTimestamp s).date) x.sample_date.date))).length :
              Int) : ℚ) := by
  have hne : ¬ ds.isEmpty = true := by
    intro h
    rw [List.isEmpty_iff.mp h] at hd
    simp at hd
  have hcalc : _calculate_averages today sub ds =
      (averagesLoop today (datetimeFromTimestamp e).date (datetimeFromTimestamp s).date
          (datetimeFromTimestamp s).date.addMonth [] ds).map
        (fun p => ⟨Date.midnight p.1,
          (p.2.num_services : ℚ) / (p.2.num_daily_services : ℚ)⟩) := by
    unfold _calculate_averages
    rw [if_neg hne, hs, he]
  have hlemma := averagesLoop_groups today (datetimeFromTimestamp e).date
    (datetimeFromTimestamp s).date ds 0 [] hsort hmid hns
    (by intro x hx k'' hk''; omega)
    (by intro k'' _; rfl) k hbt hbe
  have hfilter : d ∈ ds.filter (fun x => decide (inWindow
      (windowIter k (datetimeFromTimestamp s).date) x.sample_date.date)) :=
    List.mem_filter.mpr ⟨hd, by simpa using hin⟩
  have hfne : ¬ (ds.filter (fun x => decide (inWindow
      (windowIter k (datetimeFromTimestamp s).date) x.sample_date.date))).isEmpty = true := by
    intro h
    rw [List.isEmpty_iff.mp h] at hfilter
    simp at hfilter
  have hgroup : groupOf ds (windowIter k (datetimeFromTimestamp s).date) =
      some ⟨(ds.filter (fun x => decide (inWindow
          (windowIter k (datetimeFromTimestamp s).date) x.sample_date.date))).length,
        ((ds.filter (fun x => decide (inWindow
          (windowIter k (datetimeFromTimestamp s).date) x.sample_date.date))).map
            (fun x => pyIntOfRat x.num_services)).sum⟩ := by
    unfold groupOf
    rw [if_neg hfne]
  rw [hgroup] at hlemma
  have hlem2 : lookupMonth
      (averagesLoop today (datetimeFromTimestamp e).date (datetimeFromTimestamp s).date
        (datetimeFromTimestamp s).date.addMonth [] ds)
      (windowIter k (datetimeFromTimestamp s).date) =
      some ⟨(ds.filter (fun x => decide (inWindow
          (windowIter k (datetimeFromTimestamp s).date) x.sample_date.date))).length,
        ((ds.filter (fun x => decide (inWindow
          (windowIter k (datetimeFromTimestamp s).date) x.sample_date.date))).map
            (fun x => pyIntOfRat x.num_services)).sum⟩ := by
    rw [← mergeOpt_none_left (some _)]
    exact hlemma
  obtain ⟨p, hpfind, hp2⟩ := Option.map_eq_some'.mp hlem2
  have hpmem := List.mem_of_find?_eq_some hpfind
  have hpkey : p.1 = windowIter k (datetimeFromTimestamp s).date := by
    have := List.find?_some hpfind
    simpa using this
  refine ⟨⟨Date.midnight p.1,
    (p.2.num_services : ℚ) / (p.2.num_daily_services : ℚ)⟩, ?_, ?_, ?_⟩
  · rw [hcalc]
    exact List.mem_map.mpr ⟨p, hpmem, rfl⟩
  · rw [hpkey]
  · rw [hp2]

set_option maxRecDepth 40000 in
/-- Witness for C1 (amended): buckets 2024-01-05 and 2024-02-05 (adjacent
windows); the February bucket is assigned to the February window. -/
theorem c1_daily_buckets_assigned_amended_witness :
    ∃ a ∈ _calculate_averages todayW aggSubW dailyW3,
      a.sample_date = Date.midnight (windowIter 1 (datetimeFromTimestamp 1704067200).date) ∧
      a.num_services =
        ((((dailyW3.filter (fun x => decide (inWindow
            (windowIter 1 (datetimeFromTimestamp 1704067200).date) x.sample_date.date))).map
              (fun x => pyIntOfRat x.num_services)).sum : Int) : ℚ) /
        (((dailyW3.filter (fun x => decide (inWindow
            (windowIter 1 (datetimeFromTimestamp 1704067200).date) x.sample_date.date))).length :
              Int) : ℚ) :=
  c1_daily_buckets_assigned_amended todayW aggSubW dailyW3 1704067200 1735689600 rfl rfl
    (by decide) (by decide) (by decide) 1 ⟨Date.midnight ⟨2024, 2, 5⟩, ((20 : Int) : ℚ)⟩
    (by decide) (by decide) (by decide) (by decide)
